import Mathlib

/-!
Verification of the NEM12 daily generation pipeline
(`apps/backend/NEM12_generater/usthub_botany_mascot001_Daily/lib`).

The Python source is shallowly embedded: CSV lines are lists of string
fields, daily grids are lists of 97 optional integer readings (the `'#'`
missing sentinel becomes `none`), `Decimal` arithmetic with three-decimal
half-up quantisation becomes exact rational arithmetic with an explicit
rounding function, and Python exceptions become `Except` errors.
-/

namespace NEM12

/-- A CSV record, split on commas into fields (step4/5/6 operate on raw
comma-separated lines; the embedding works at field granularity). -/
abbrev Line := List String

/-! ## step3_get_NMI12_ori.py : rounding and differences -/

/-- Round a rational to the nearest integer, ties away from zero: the
behaviour of `decimal.ROUND_HALF_UP`. -/
def halfUpUnit (q : ℚ) : ℤ :=
  if q < 0 then -(Int.floor (-q + 1/2)) else Int.floor (q + 1/2)

/-- `Decimal(...).quantize(Decimal('0.001'), rounding=ROUND_HALF_UP)`:
round to three decimal places, half up (away from zero). -/
def roundHalfUp3 (q : ℚ) : ℚ := (halfUpUnit (1000 * q) : ℚ) / 1000

/-- One interval difference (body of the loop in `calculate_differences`,
step3 lines 161-168): present endpoints give the quantised scaled
difference, a missing endpoint gives the sentinel. -/
def diffOf : Option ℚ → Option ℚ → Option ℚ
  | some x, some y => some (roundHalfUp3 ((y - x) / 100))
  | _, _ => none

/-- `calculate_differences` (step3, lines 154-169): for each pair of
adjacent slots, if both are present the difference is
`(values[i] - values[i-1]) / 100` quantised to 3 decimals half-up,
otherwise the missing sentinel. -/
def calculate_differences : List (Option ℚ) → List (Option ℚ)
  | a :: b :: rest => diffOf a b :: calculate_differences (b :: rest)
  | _ => []

/-- The status computation of `expand_and_format` (step3, lines 317-330):
`N` when the day was synthesised whole by the full-day estimator,
else `A` when no time points were filled, else `V`. -/
def dayStatus (is_full_day_filled : Bool) (filled_times : List Nat) : String :=
  if is_full_day_filled then "N"
  else if filled_times.length = 0 then "A" else "V"

/-! ## step3_get_NMI12_ori.py : estimate_missing_days

One meter's window is a list of daily grids indexed by consecutive day
numbers (the Python dict is keyed by consecutive dates); a grid is 97
optional readings. -/

/-- One day's 97-slot grid; `none` is the `'#'` sentinel. -/
abbrev Grid := List (Option ℤ)

/-- `all(v == '#' for v in daily_data[day])` (step3, line 77). -/
def is_all_missing (g : Grid) : Bool := g.all fun v => v.isNone

/-- The segment-collection loop of `estimate_missing_days` (step3, lines
82-97), walking the days in order while carrying the open segment start:
emits `(start, end)` with `end` the first non-missing day after the run,
or `(start, lastDay+1)` for a run still open at the end of the window. -/
def missing_segments_go : Nat → Option Nat → List Bool → List (Nat × Nat)
  | i, some s, [] => [(s, i)]
  | _, none, [] => []
  | i, start?, b :: rest =>
    if b then
      match start? with
      | none => missing_segments_go (i+1) (some i) rest
      | some s => missing_segments_go (i+1) (some s) rest
    else
      match start? with
      | some s => (s, i) :: missing_segments_go (i+1) none rest
      | none => missing_segments_go (i+1) none rest

/-- All maximal runs of fully-missing days, as `(start, end)` pairs. -/
def missing_segments (status : List Bool) : List (Nat × Nat) :=
  missing_segments_go 0 none status

/-- Python `max` over a possibly-empty list of naturals. -/
def opt_max (l : List Nat) : Option Nat :=
  l.foldl (fun acc d => match acc with | none => some d | some m => some (max m d)) none

/-- Python `min` over a possibly-empty list of naturals. -/
def opt_min (l : List Nat) : Option Nat :=
  l.foldl (fun acc d => match acc with | none => some d | some m => some (min m d)) none

/-- Python `max` over a possibly-empty list of integers. -/
def opt_maxZ (l : List ℤ) : Option ℤ :=
  l.foldl (fun acc d => match acc with | none => some d | some m => some (max m d)) none

/-- Python `min` over a possibly-empty list of integers. -/
def opt_minZ (l : List ℤ) : Option ℤ :=
  l.foldl (fun acc d => match acc with | none => some d | some m => some (min m d)) none

/-- `max([d for d in days if d < start_day and not status[d]], default=None)`
(step3, line 103). -/
def prev_day (status : List Bool) (s : Nat) : Option Nat :=
  opt_max ((List.range status.length).filter fun d => decide (d < s) && !(status.getD d true))

/-- `min([d for d in days if d > end_day and not status[d]], default=None)`
(step3, line 104): note the strict `d > end_day`, where `end_day` is
already the first non-missing day after the run. -/
def next_day (status : List Bool) (e : Nat) : Option Nat :=
  opt_min ((List.range status.length).filter fun d => decide (e < d) && !(status.getD d true))

/-- `max(int(v) for v in values if v != '#')`. -/
def grid_max (g : Grid) : Option ℤ := opt_maxZ (g.filterMap id)

/-- `min(int(v) for v in values if v != '#')`. -/
def grid_min (g : Grid) : Option ℤ := opt_minZ (g.filterMap id)

/-- One synthesised day (step3, lines 119-123): slot 0 is `day_value`,
slot `j` is `day_value + (j * daily_step) // 96` (Python floor division). -/
def synth_day (day_value daily_step : ℤ) : Grid :=
  (List.range 97).map fun j : ℕ => some (day_value + Int.fdiv ((j : ℤ) * daily_step) 96)

/-- The both-sides interpolation loop (step3, lines 116-129): day `s + i`
(for `i = 0 .. r-1`) gets the flat-growth grid starting at
`max_value_prev + i * daily_step`, and is flagged fully filled. -/
def fill_run_both (daily : List Grid) (flags : List Bool) (s r : Nat) (mx step : ℤ) :
    List Grid × List Bool :=
  (List.range r).foldl
    (fun acc i => (acc.1.set (s + i) (synth_day (mx + i * step) step), acc.2.set (s + i) true))
    (daily, flags)

/-- The one-sided fill loops (step3, lines 131-149): every missing day of
the run gets a constant grid (the neighbour's extreme value), sized like
the neighbouring grid, and is flagged fully filled. -/
def fill_run_flat (daily : List Grid) (flags : List Bool) (s r : Nat) (g : Grid) (v : ℤ) :
    List Grid × List Bool :=
  (List.range r).foldl
    (fun acc i => (acc.1.set (s + i) (List.replicate g.length (some v)), acc.2.set (s + i) true))
    (daily, flags)

/-- Processing of one missing segment `(s, e)` (step3, lines 100-149).
The `| _, _ => acc` fallbacks mirror situations the Python code never
reaches (a non-missing day always has at least one reading, so its
`max`/`min` never sees an empty sequence). -/
def estimate_segment (status : List Bool) (acc : List Grid × List Bool) (seg : Nat × Nat) :
    List Grid × List Bool :=
  match prev_day status seg.1, next_day status seg.2 with
  | some p, some nx =>
    match grid_max (acc.1.getD p []), grid_min (acc.1.getD nx []) with
    | some mx, some mn =>
      let step := Int.fdiv (mn - mx) ((seg.2 - seg.1 : ℕ) + 1)
      fill_run_both acc.1 acc.2 seg.1 (seg.2 - seg.1) mx step
    | _, _ => acc
  | none, some nx =>
    match grid_min (acc.1.getD nx []) with
    | some mn => fill_run_flat acc.1 acc.2 seg.1 (seg.2 - seg.1) (acc.1.getD nx []) mn
    | none => acc
  | some p, none =>
    match grid_max (acc.1.getD p []) with
    | some mx => fill_run_flat acc.1 acc.2 seg.1 (seg.2 - seg.1) (acc.1.getD p []) mx
    | none => acc
  | none, none => acc

/-- `estimate_missing_days` (step3, lines 64-151) for one meter: returns
the updated day-to-grid map and the per-day `full_day_filled` flags. -/
def estimate_missing_days (daily : List Grid) : List Grid × List Bool :=
  let status := daily.map is_all_missing
  (missing_segments status).foldl (estimate_segment status) (daily, List.replicate daily.length false)

/-- An entirely-missing 97-slot grid. -/
def allMissingGrid : Grid := List.replicate 97 none

/-- A constant 97-slot grid. -/
def flatGrid (v : ℤ) : Grid := List.replicate 97 (some v)

/-- Concrete estimator input: day 0 reads 500 all day, days 1-2 are fully
missing, day 3 reads 1000 all day, day 4 reads 560 all day. -/
def exEstimateInput : List Grid :=
  [flatGrid 500, allMissingGrid, allMissingGrid, flatGrid 1000, flatGrid 560]

/-! ## step3_get_NMI12_ori.py : create_numeric_15_3 and the 610/710 total -/

/-- Number of digits of the integer part of a 3-decimal value: the length
of Python's `str(decimal_value)` with sign and decimal point removed is
this plus the three decimal digits. -/
def intDigits (q : ℚ) : ℕ := max 1 (Nat.digits 10 (Int.toNat ⌊|q|⌋)).length

/-- `create_numeric_15_3` (step3, lines 172-183): quantise to 3 decimals
half-up; raise when the formatted value needs more than 15 digits (sign
and decimal point excluded).  The surrounding `Decimal` context of
precision 15 makes `quantize` itself raise at exactly the same threshold
(a coefficient of more than 15 digits, i.e. an absolute value of at
least `10^12`), so a single error case captures the observable
behaviour: an exception exactly when the value needs more than 15
digits. -/
def create_numeric_15_3 (value : ℚ) : Except String ℚ :=
  if intDigits (roundHalfUp3 value) + 3 > 15 then
    Except.error "Value exceeds Numeric(15, 3) limits"
  else Except.ok (roundHalfUp3 value)

/-- The 610/710 cumulative total (step3, lines 310-312 and 411-414):
`offset_usage / 1000 + int(max_reading) / ((1 * litter_factor) / 1000)`
passed through `create_numeric_15_3`, with the maximum reading defaulting
to 0 when every slot of the grid is missing. -/
def offset_plus_max_reading (offset_usage : ℤ) (litter_factor : ℚ) (values : Grid) :
    Except String ℚ :=
  let max_reading : ℤ := (grid_max values).getD 0
  let max_reading_factor : ℚ := (1 * litter_factor) / 1000
  create_numeric_15_3 ((offset_usage : ℚ) / 1000 + (max_reading : ℚ) / max_reading_factor)

/-! ## step3_get_NMI12_ori.py : interpolate_missing_values -/

/-- The leading back-fill walk (step3, lines 203-208): replace each
leading missing slot by `v`, recording its index, and stop at the first
present slot. -/
def fillLead (v : ℤ) : Grid → Nat → Grid × List Nat
  | [], _ => ([], [])
  | none :: rest, i =>
    let p := fillLead v rest (i+1)
    (some v :: p.1, i :: p.2)
  | some w :: rest, _ => (some w :: rest, [])

/-- `next((v for v in values if v != '#'), None)` (step3, line 200). -/
def first_non_hash (g : Grid) : Option ℤ := (g.filterMap id).head?

/-- The leading-`'#'` phase of `interpolate_missing_values` (step3, lines
199-208): only runs when slot 0 is missing and some slot is present. -/
def interp_prefill (values : Grid) : Grid × List Nat :=
  match values with
  | none :: _ =>
    match first_non_hash values with
    | some v => fillLead v values 0
    | none => (values, [])
  | _ => (values, [])

/-- The body of `while end < n and values[end] == '#': end += 1` (step3,
lines 218-219); the loop advances at most `n - end` times, which the
first argument counts down. -/
def scan_end_go (values : Grid) : Nat → Nat → Nat
  | 0, e => e
  | fuel+1, e =>
    if e < values.length then
      match values.getD e none with
      | none => scan_end_go values fuel (e+1)
      | some _ => e
    else e

/-- `while end < n and values[end] == '#': end += 1` (step3, lines
218-219). -/
def scan_end (values : Grid) (e : Nat) : Nat :=
  scan_end_go values (values.length - e) e

/-- The interior gap fill (step3, lines 234-237): position `s + j` for
`j = 1 .. gap` becomes `start_value + j * delta`, each filled index
recorded in order. -/
def fill_gap (values : Grid) (sv delta : ℤ) (s gap : Nat) : Grid × List Nat :=
  (List.range gap).foldl
    (fun acc j => (acc.1.set (s + (j+1)) (some (sv + ((j : ℤ)+1) * delta)), acc.2 ++ [s + (j+1)]))
    (values, [])

/-- The trailing flat fill (step3, lines 244-247): every position from
`s + 1` to the end becomes `start_value`. -/
def fill_tail (values : Grid) (sv : ℤ) (s : Nat) : Grid × List Nat :=
  (List.range (values.length - (s+1))).foldl
    (fun acc j => (acc.1.set (s+1+j) (some sv), acc.2 ++ [s+1+j]))
    (values, [])

/-- The main scan of `interpolate_missing_values` (step3, lines 212-247),
iterating `for i in range(n)` over the day's indices.  A missing slot at
`i ≥ 1` whose left neighbour is present is the head of a run: the scan
finds the run's right end; a present right boundary gives integer-floor
linear interpolation of the run, a missing one (the run reaches the end
of the grid) gives the flat extension.  (Python's `if gap > 0` guard is
vacuous: the run always has at least the slot at `i` itself.) -/
def interp_loop : Grid → List Nat → List Nat → Grid × List Nat
  | values, filled, [] => (values, filled)
  | values, filled, i :: todo =>
    match values.getD i none with
    | some _ => interp_loop values filled todo
    | none =>
      match i with
      | 0 => interp_loop values filled todo
      | s + 1 =>
        match values.getD s none with
        | none => interp_loop values filled todo
        | some sv =>
          let e := scan_end values (s + 2)
          if e < values.length then
            match values.getD e none with
            | some ev =>
              let gap := e - s - 1
              let delta := Int.fdiv (ev - sv) (gap + 1)
              let p := fill_gap values sv delta s gap
              interp_loop p.1 (filled ++ p.2) todo
            | none => interp_loop values filled todo
          else
            let p := fill_tail values sv s
            interp_loop p.1 (filled ++ p.2) todo

/-- `interpolate_missing_values` (step3, lines 188-254): the filled grid,
the `interpolated` marker (truthy exactly when at least one slot was
filled) and the filled slot indices (the Python version records the
matching time-slot labels). -/
def interpolate_missing_values (values : Grid) : Grid × Bool × List Nat :=
  let p := interp_prefill values
  let q := interp_loop p.1 p.2 (List.range values.length)
  (q.1, !q.2.isEmpty, q.2)

/-- One meter's inputs to the `expand_and_format` loop. -/
structure MeterRow where
  offset_usage : ℤ
  litter_factor : ℚ
  values : Grid

/-- The per-meter loop of `expand_and_format` (step3, lines 288-425),
restricted to the cumulative-total computation: the loop body evaluates
`create_numeric_15_3` for each meter in turn, and a raised error
propagates out of `expand_and_format` (there is no handler), so it
aborts the whole day's run. -/
def expand_cumulative_totals : List MeterRow → Except String (List ℚ)
  | [] => Except.ok []
  | row :: rest =>
    match offset_plus_max_reading row.offset_usage row.litter_factor row.values with
    | Except.error e => Except.error e
    | Except.ok v =>
      match expand_cumulative_totals rest with
      | Except.error e => Except.error e
      | Except.ok vs => Except.ok (v :: vs)

/-! ## step5_multiple300_clear610.py : modify_300_and_610

A CSV line is modeled by its comma-split fields.  `line.startswith(t)`
for a record tag `t` such as `"300"` holds exactly when the first field
starts with `t` (a comma can never complete the tag), and the substring
test `"N" in parts[-4]` is membership of the character `N`. -/

/-- `line.startswith(t)`: the first field starts with the tag. -/
def startswith (l : Line) (t : String) : Bool :=
  t.data.isPrefixOf (l.headD "").data

/-- The step5 trigger test (lines 120-122): a `300` record whose flag
field `parts[-4]` contains `N`.  (Python would raise on a line with
fewer than four fields; real `300` records have 102.) -/
def triggered300 (lines : List Line) (i : ℕ) : Bool :=
  startswith (lines.getD i []) "300" &&
    ((lines.getD i []).getD ((lines.getD i []).length - 4) "").data.contains 'N'

/-- `parts[2:98] = ["0.000"] * 96` (line 124): slice assignment replaces
the (clamped) fields at indices 2-97 by the 96 zeros. -/
def zero300 (parts : Line) : Line :=
  parts.take 2 ++ List.replicate 96 "0.000" ++ parts.drop 98

/-- The inner `for k in range(len(parts_610))` loop (lines 132-136):
rewrite the field after the first `"W1"` that has a successor to
`"0.000"`; `none` when there is no such field (then `modified_lines[j]`
is never written). -/
def zeroW1 : Line → Option Line
  | [] => none
  | "W1" :: _ :: rest => some ("W1" :: "0.000" :: rest)
  | a :: rest =>
    match zeroW1 rest with
    | some r => some (a :: r)
    | none => none

/-- Body of `for j in range(idx+1, len(lines))` (lines 128-129): the
first index at or after `j` holding a `610` record; the fuel counts the
remaining iterations. -/
def find610_go (lines : List Line) : ℕ → ℕ → Option ℕ
  | 0, _ => none
  | fuel+1, j =>
    if startswith (lines.getD j []) "610" then some j
    else find610_go lines fuel (j+1)

/-- The index of the first `610` record at or after index `i`. -/
def find610 (lines : List Line) (i : ℕ) : Option ℕ :=
  find610_go lines (lines.length - i) i

/-- One iteration of `for idx, line in enumerate(lines)` (step5, lines
119-137): conditions and rewritten values are read from the *original*
`lines`; writes go to `modified`. -/
def modify_step (lines : List Line) (modified : List Line) (idx : ℕ) : List Line :=
  if triggered300 lines idx then
    let m1 := modified.set idx (zero300 (lines.getD idx []))
    match find610 lines (idx + 1) with
    | none => m1
    | some j =>
      match zeroW1 (lines.getD j []) with
      | some r => m1.set j r
      | none => m1
  else modified

/-- `modify_300_and_610` (step5, lines 114-138). -/
def modify_300_and_610 (lines : List Line) : List Line :=
  (List.range lines.length).foldl (modify_step lines) lines

/-- Index `i` is the first `610` record after a `300` record triggered
within the first `m` loop iterations. -/
def target610 (lines : List Line) (m i : ℕ) : Bool :=
  (List.range m).any fun idx =>
    triggered300 lines idx && (find610 lines (idx + 1) == some i)

/-- The value the overlay-zeroing pass leaves at index `i` after its
first `m` loop iterations. -/
def expectedAt (lines : List Line) (m i : ℕ) : Line :=
  if triggered300 lines i && decide (i < m) then zero300 (lines.getD i [])
  else if target610 lines m i then
    match zeroW1 (lines.getD i []) with
    | some r => r
    | none => lines.getD i []
  else lines.getD i []

/-! ## step3_get_NMI12_ori.py : the `V`-day 400-segment construction
(lines 343-408)

`filled_times` enter as their slot indices `time_index = get_loc(...)`
in `0..96`.  The Python `set` of marked indices becomes a `Finset ℕ`;
`sorted(...)` of a set of indices drawn from `1..96` is the ascending
filter of `1..96`; Python's stable `sorted(key = start)` is an insertion
sort on the start component (the starts here are pairwise distinct, so
any sort by start agrees with it). -/

/-- The indices marked by one filled slot index (step3, lines 348-357):
slot `0` marks interval `1`; an interior slot marks itself and its
successor; slot `96` marks itself. -/
def markOf (ti : ℕ) : Finset ℕ :=
  (if ti = 0 then {1} else ∅) ∪
    (if 0 < ti ∧ ti < 96 then {ti, ti + 1} else ∅) ∪
    (if ti = 96 then {96} else ∅)

/-- `time_slot_indices` (step3, lines 346-357): all indices marked by the
day's filled slots. -/
def mark_indices (tis : List ℕ) : Finset ℕ :=
  tis.foldl (fun s ti => s ∪ markOf ti) ∅

/-- Whether interval index `i` is marked. -/
def is_marked (tis : List ℕ) (i : ℕ) : Bool := decide (i ∈ mark_indices tis)

/-- The run loop of `merge_time_slots` (step3, lines 370-381), carrying
the open run `start..end`. -/
def merge_go (label : String) : ℕ → ℕ → List ℕ → List (ℕ × ℕ × String)
  | s, e, [] => [(s, e, label)]
  | s, e, i :: rest =>
    if i = e + 1 then merge_go label s i rest
    else (s, e, label) :: merge_go label i i rest

/-- `merge_time_slots` (step3, lines 368-383): maximal runs of an
ascending index list, tagged with `label`. -/
def merge_time_slots (indices : List ℕ) (label : String) : List (ℕ × ℕ × String) :=
  match indices with
  | [] => []
  | i :: rest => merge_go label i i rest

/-- Python's stable `sorted(..., key=lambda x: x[0])` (step3, line 387)
as insertion sort on the start component. -/
def insertSeg (x : ℕ × ℕ × String) : List (ℕ × ℕ × String) → List (ℕ × ℕ × String)
  | [] => [x]
  | y :: rest => if y.1 < x.1 then y :: insertSeg x rest else x :: y :: rest

/-- Sort segments by start index. -/
def sortByStart : List (ℕ × ℕ × String) → List (ℕ × ℕ × String)
  | [] => []
  | x :: rest => insertSeg x (sortByStart rest)

/-- The full `V`-day segment construction (step3, lines 343-408): mark,
complement against `1..96`, merge both labels, sort by start, drop any
`(96, 96, A)` segment, rewrite a start of `0` to `1`, and drop a lone
`(1, 96, A)` or `(1, 96, F)` segment. -/
def build_segments (tis : List ℕ) : List (ℕ × ℕ × String) :=
  let fList := (List.range' 1 96).filter fun i => is_marked tis i
  let aList := (List.range' 1 96).filter fun i => !is_marked tis i
  let combined := sortByStart (merge_time_slots fList "F" ++ merge_time_slots aList "A")
  let c1 := combined.filter fun g => !(g.1 == 96 && g.2.1 == 96 && g.2.2 == "A")
  let c2 := c1.map fun g => (if g.1 = 0 then 1 else g.1, g.2.1, g.2.2)
  let c3 := if c2 = ([(1, 96, "A")] : List (ℕ × ℕ × String)) then [] else c2
  if c3 = ([(1, 96, "F")] : List (ℕ × ℕ × String)) then [] else c3

/-- The segment pipeline up to the two lone-segment checks (the value
`combined_time_slots` holds after step3 line 398). -/
def seg_c2 (tis : List ℕ) : List (ℕ × ℕ × String) :=
  ((sortByStart
      (merge_time_slots ((List.range' 1 96).filter fun i => is_marked tis i) "F" ++
        merge_time_slots ((List.range' 1 96).filter fun i => !is_marked tis i) "A")).filter
    fun g => !(g.1 == 96 && g.2.1 == 96 && g.2.2 == "A")).map
      fun g => (if g.1 = 0 then 1 else g.1, g.2.1, g.2.2)

/-! ## step4_get_all300_andTriggerDate.py and step5 insert_trigger_data

One meter-day record (step4 `get_all_meter_data`) carries the file's
date, the meter's `300` line and its status flag.  A meter's records are
listed in date order with distinct dates, so the Python date sorts are
positional and `sorted(backtracked)` reverses the downward collection. -/

/-- One meter-day record. -/
structure MRec where
  file_date : ℕ
  line : Line
  status : String
deriving DecidableEq

/-- The contribution of loop index `i` of `backtrack_meter_data` (step4,
lines 115-141): an `A`/`V` day emits its maximal preceding run of `N`
days (oldest first) and then itself, all stamped with its date as the
trigger date; any other day, or an `A`/`V` day with no preceding `N`,
emits nothing. -/
def backtrack_contrib (recs : List MRec) (i : ℕ) : List (MRec × ℕ) :=
  let r := recs.getD i ⟨0, [], ""⟩
  if r.status = "A" ∨ r.status = "V" then
    let run := ((recs.take i).reverse.takeWhile fun x => x.status == "N").reverse
    if run = [] then []
    else run.map (fun x => (x, r.file_date)) ++ [(r, r.file_date)]
  else []

/-- `backtrack_meter_data` (step4, lines 92-150) for one meter. -/
def backtrack_meter (recs : List MRec) : List (MRec × ℕ) :=
  (List.range recs.length).foldl (fun acc i => acc ++ backtrack_contrib recs i) []

/-- Python `str.replace("N", "F")` for the one-character pattern. -/
def replaceNF (s : String) : String :=
  String.mk (s.data.map fun c => if c = 'N' then 'F' else c)

/-- `update_flag_to_f` (step5, lines 45-52): replace `N` by `F` in the
field `parts[-4]`. -/
def update_flag_to_f (l : Line) : Line :=
  if (l.getD (l.length - 4) "").data.contains 'N' then
    l.set (l.length - 4) (replaceNF (l.getD (l.length - 4) ""))
  else l

/-- The `for idx, line in enumerate(lines)` scan of `insert_trigger_data`
(step5, lines 84-85): the first line that is a `610` record mentioning
the meter serial (the serial is a field of its `610` line). -/
def find610m_go (lines : List Line) (meter : String) : ℕ → ℕ → Option ℕ
  | 0, _ => none
  | fuel+1, j =>
    if startswith (lines.getD j []) "610" && decide (meter ∈ lines.getD j []) then some j
    else find610m_go lines meter fuel (j+1)

/-- The index of the meter's `610` record. -/
def find610m (lines : List Line) (meter : String) : Option ℕ :=
  find610m_go lines meter lines.length 0

/-- The upward scan `for j in range(idx-1, -1, -1)` (step5, lines
87-95): step over `400` records to the meter's `300` record; `none` when
none is found before a foreign record or the top of the file.  (On a
foreign record Python leaves `insertion_index` unbound and would crash
one line later; no well-formed file reaches that branch.) -/
def find300up (lines : List Line) : ℕ → Option ℕ
  | 0 => none
  | j+1 =>
    if startswith (lines.getD j []) "300" then some j
    else if startswith (lines.getD j []) "400" then find300up lines j
    else none

/-- One `(meter_serial, trigger_date)` group of `insert_trigger_data`
(step5, lines 84-111): the backtracked `300` lines other than the
trigger day's own, flags flipped to `F`, are inserted directly above the
meter's `300` record — `insertion_index` is the index of the `300`
line. -/
def insert_group (lines : List Line) (meter : String) (records : List (MRec × ℕ))
    (trigger_date : ℕ) : List Line :=
  match find610m lines meter with
  | none => lines
  | some idx =>
    match find300up lines idx with
    | none => lines
    | some ins =>
      let insertion_lines :=
        (records.filter fun r => r.1.file_date ≠ trigger_date).map
          fun r => update_flag_to_f r.1.line
      if insertion_lines = [] then lines
      else lines.take ins ++ insertion_lines ++ lines.drop ins

/-- A backtracked `N` day (date 1). -/
def exN : MRec := ⟨1, ["300", "20120923", "9.999", "N", "", "20121004", ""], "N"⟩

/-- Its trigger day (date 2, status `V`). -/
def exV : MRec := ⟨2, ["300", "20120924", "8.888", "V", "", "20121004", ""], "V"⟩

/-- The trigger day's export file: its `300` block has a `400` detail
between the `300` and the `610`. -/
def exFile : List Line :=
  [["100", "NEM12"], ["200", "M1"],
   ["300", "20120924", "8.888", "V", "", "20121004", ""],
   ["400", "1", "96", "A", ""],
   ["610", "NMI", "M1", "20120924", "W1", "5.5"],
   ["900"]]

/-! ## step6_clear610and710.py : the carry-forward corrector

Files are parsed line lists; `prev_files` holds the earlier files'
lines, nearest day first.  Python `float(...)` is modeled for the plain
decimal forms the pipeline writes, and `f"{v:.3f}"` as exact half-even
rounding to three decimals. -/

/-- Python `str.strip()` for space padding. -/
def pyStrip (s : String) : String :=
  String.mk (((s.data.dropWhile (· == ' ')).reverse.dropWhile (· == ' ')).reverse)

/-- Python `float(s)` on the plain `[-]digits[.digits]` forms the
pipeline writes, held exactly in thousandths (these values carry at most
three decimals, so `float` plus `f"{v:.3f}"` round-trips them exactly);
`none` models the `ValueError` branch. -/
def parseMilli (s : String) : Option ℤ :=
  let ds := s.data
  let neg : Bool := ds.headD ' ' == '-'
  let ds2 := if neg then ds.tail else ds
  let ip := ds2.takeWhile (fun c => c != '.')
  let fp := (ds2.dropWhile (fun c => c != '.')).tail
  if ds2.isEmpty || (ip.isEmpty && fp.isEmpty) ||
      !(ip.all Char.isDigit) || !(fp.all Char.isDigit) then none
  else
    let ipv : ℕ := ip.foldl (fun n c => n * 10 + (c.toNat - 48)) 0
    let fpv : ℕ := ((fp ++ ['0', '0', '0']).take 3).foldl
      (fun n c => n * 10 + (c.toNat - 48)) 0
    some (if neg then -((ipv * 1000 + fpv : ℕ) : ℤ) else ((ipv * 1000 + fpv : ℕ) : ℤ))

/-- Three right-padded decimal digits. -/
def pad3 (k : ℕ) : String :=
  if k < 10 then "00" ++ toString k
  else if k < 100 then "0" ++ toString k else toString k

/-- `f"{v:.3f}"` on a value held in thousandths. -/
def fmt3 (n : ℤ) : String :=
  let m := n.natAbs
  (if n < 0 then "-" else "") ++ toString (m / 1000) ++ "." ++ pad3 (m % 1000)

/-- The upward `300` scan of `find_previous_valid_610` (step6, lines
40-41): the nearest `300` record above, over anything. -/
def find300above (lines : List Line) : ℕ → Option ℕ
  | 0 => none
  | j+1 =>
    if startswith (lines.getD j []) "300" then some j
    else find300above lines j

/-- The outer scan of `find_previous_valid_610` (step6, lines 37-38): the
first `610` record mentioning the meter that has some `300` above it
(a matching `610` with no `300` above is skipped and the scan goes on). -/
def find610res (lines : List Line) (meter : String) : ℕ → ℕ → Option (ℕ × ℕ)
  | 0, _ => none
  | fuel+1, i =>
    if startswith (lines.getD i []) "610" && decide (meter ∈ lines.getD i []) then
      match find300above lines i with
      | some j => some (i, j)
      | none => find610res lines meter fuel (i+1)
    else find610res lines meter fuel (i+1)

/-- `find_previous_valid_610` (step6, lines 24-60): locate the meter's
`610` and its `300`; on flag `N` recurse into the next earlier file
(`prev_files.pop(0)`, nearest first), `none` when none remain; otherwise
return the `610` line's parsed last value and the `300` line's date. -/
def find_previous_valid_610 (meter : String) : List (List Line) → List Line →
    Option (Option ℤ × String)
  | prevs, lines =>
    match find610res lines meter lines.length 0 with
    | none => none
    | some (i, j) =>
      let parts := lines.getD j []
      if pyStrip (parts.getD (parts.length - 4) "") = "N" then
        match prevs with
        | [] => none
        | nf :: rest => find_previous_valid_610 meter rest nf
      else
        some (parseMilli ((lines.getD i []).getD ((lines.getD i []).length - 1) ""),
          parts.getD 1 "")

/-- The `for j in range(i+1, ...)` scan for the `710` record (step6,
lines 172-173). -/
def find710_go (lines : List Line) : ℕ → ℕ → Option ℕ
  | 0, _ => none
  | fuel+1, j =>
    if startswith (lines.getD j []) "710" then some j
    else find710_go lines fuel (j+1)

/-- The first `710` record at or after index `j`. -/
def find710 (lines : List Line) (j : ℕ) : Option ℕ :=
  find710_go lines (lines.length - j) j

/-- The `for i, line in enumerate(modified_lines)` loop of
`modify_csv_files` for one meter (step6, lines 148-177).  The `610`
rewrite is guarded by `if previous_value and previous_value["value"] is
not None`, but the `710` rewrite is not: it evaluates
`previous_value['value']` unconditionally, raising `TypeError` when
`previous_value` is `None` (subscripting `None`) or when its value is
`None` (formatting `None`). -/
def modify_meter_go (meter : String) (previous : Option (Option ℤ × String)) :
    ℕ → ℕ → List Line → Except String (List Line)
  | 0, _, modified => Except.ok modified
  | fuel+1, i, modified =>
    if startswith (modified.getD i []) "610" && decide (meter ∈ modified.getD i []) then
      let parts := modified.getD i []
      let m1 := match previous with
        | some pv =>
          match pv.1 with
          | some v => modified.set i (parts.set (parts.length - 1) (fmt3 v))
          | none => modified
        | none => modified
      match find710 m1 (i+1) with
      | none => modify_meter_go meter previous fuel (i+1) m1
      | some j =>
        match previous with
        | none => Except.error "TypeError: 'NoneType' object is not subscriptable"
        | some pv =>
          match pv.1 with
          | none =>
            Except.error "TypeError: unsupported format string passed to NoneType.__format__"
          | some v =>
            let p710 := m1.getD j []
            modify_meter_go meter previous fuel (i+1)
              (m1.set j (p710.set (p710.length - 1) (fmt3 v)))
    else modify_meter_go meter previous fuel (i+1) modified

/-- One meter's pass of `modify_csv_files` over one file. -/
def modify_one_meter (lines : List Line) (meter : String)
    (previous : Option (Option ℤ × String)) : Except String (List Line) :=
  modify_meter_go meter previous lines.length 0 lines

/-- The current file: meter `M1`'s `300` is flagged `N`; a `710` follows
its `610`. -/
def ex6cur : List Line :=
  [["100", "NEM12"], ["200", "M1"],
   ["300", "20120924", "8.888", "N", "", "20121004", ""],
   ["610", "NMI", "M1", "20120924", "W1", "5.5", "100.000"],
   ["710", "NMI", "M1", "20120924", "W1", "1.000", "100.000"],
   ["900"]]

/-- The previous day's file: still flagged `N`. -/
def ex6prevN : List Line :=
  [["100", "NEM12"], ["200", "M1"],
   ["300", "20120923", "7.777", "N", "", "20121004", ""],
   ["610", "NMI", "M1", "20120923", "W1", "4.4", "90.000"],
   ["710", "NMI", "M1", "20120923", "W1", "1.000", "90.000"],
   ["900"]]

/-- Two days back: flagged `A` with total `55.500`. -/
def ex6prevA : List Line :=
  [["100", "NEM12"], ["200", "M1"],
   ["300", "20120922", "6.666", "A", "", "20121004", ""],
   ["610", "NMI", "M1", "20120922", "W1", "3.3", "55.500"],
   ["710", "NMI", "M1", "20120922", "W1", "1.000", "55.500"],
   ["900"]]

/-- A five-record export file: header, meter header, a triggered `300`
(flag `N` at `parts[-4]`), a `400` detail, its `610`, and the terminator. -/
def ex5lines : List Line :=
  [["100", "NEM12", "200506081149", "UNITEDNP", "NEMMCO"],
   ["200", "NCDE001110", "E1", "E1", "N1", "", "01009", "KWH", "30"],
   ["300", "20120924"] ++ List.replicate 96 "1.234" ++ ["N", "", "20121004", ""],
   ["400", "1", "96", "A", "", ""],
   ["610", "20120924", "W1", "98.765"],
   ["900"]]

end NEM12

namespace NEM12

/-! ## Theorems -/

/-- Helper: length of `calculate_differences`. -/
theorem calculate_differences_length (values : List (Option ℚ)) :
    (calculate_differences values).length = values.length - 1 := by
  induction values with
  | nil => rfl
  | cons a rest ih =>
    cases rest with
    | nil => rfl
    | cons b rest' => simpa [calculate_differences] using ih

/-- Helper: element characterisation of `calculate_differences`. -/
theorem calculate_differences_get (values : List (Option ℚ)) (i : Nat)
    (a b : Option ℚ) (ha : values[i]? = some a) (hb : values[i+1]? = some b) :
    (calculate_differences values)[i]? = some (diffOf a b) := by
  induction values generalizing i a b with
  | nil => simp at ha
  | cons v rest ih =>
    cases rest with
    | nil => simp at hb
    | cons w rest' =>
      cases i with
      | zero =>
        simp only [zero_add, List.getElem?_cons_succ, List.getElem?_cons_zero,
          Option.some.injEq] at ha hb
        subst ha; subst hb; simp [calculate_differences]
      | succ j =>
        rw [List.getElem?_cons_succ] at ha
        rw [List.getElem?_cons_succ] at hb
        simpa [calculate_differences] using ih j a b ha hb

/-- C7: for a 97-slot grid, exactly 96 interval differences are produced;
each difference for two present endpoints is `(slot[i] - slot[i-1]) / 100`
rounded to 3 decimals half-up, a missing endpoint yields the sentinel,
and `(530 - 500) / 100` rounds to exactly `0.300`. -/
theorem differences_spec (values : List (Option ℚ)) (h : values.length = 97) :
    (calculate_differences values).length = 96 ∧
    (∀ i a b, values[i]? = some a → values[i+1]? = some b →
      (calculate_differences values)[i]? = some (diffOf a b)) ∧
    calculate_differences [some 500, some 530] = [some (3/10)] := by
  refine ⟨by rw [calculate_differences_length, h], ?_, ?_⟩
  · intro i a b ha hb
    exact calculate_differences_get values i a b ha hb
  · show (diffOf (some 500) (some 530) :: calculate_differences [some 530]) = _
    norm_num [calculate_differences, diffOf, roundHalfUp3, halfUpUnit]

/-- C7 witness: the theorem instantiated on an explicit 97-slot grid. -/
theorem differences_spec_witness :
    (calculate_differences (List.replicate 97 (none : Option ℚ))).length = 96 :=
  (differences_spec (List.replicate 97 none) (by simp)).1

/-- C6: the emitted status flag is determined exactly by the
`FullyEstimated` flag and the filled-slot list: flag set gives `N`,
otherwise an empty filled list gives `A` and a non-empty one gives `V`;
hence a day with zero filled slots is never flagged `V`, and a day whose
flag was set by the full-day estimator is always flagged `N`. -/
theorem status_spec (b : Bool) (filled : List Nat) :
    (b = true → dayStatus b filled = "N") ∧
    (b = false → filled = [] → dayStatus b filled = "A") ∧
    (b = false → filled ≠ [] → dayStatus b filled = "V") ∧
    (filled = [] → dayStatus b filled ≠ "V") ∧
    (∀ (daily : List Grid) (d : ℕ),
      (estimate_missing_days daily).2.getD d false = true →
      dayStatus ((estimate_missing_days daily).2.getD d false) filled = "N") := by
  refine ⟨?_, ?_, ?_, ?_, ?_⟩
  · intro hb; simp [dayStatus, hb]
  · intro hb hf; simp [dayStatus, hb, hf]
  · intro hb hf; simp [dayStatus, hb, hf, List.length_eq_zero]
  · intro hf
    cases b <;> simp [dayStatus, hf]
  · intro daily d hd
    rw [hd]
    simp [dayStatus]

set_option maxRecDepth 100000 in
/-- C6 witness: concrete instances of all five conjuncts, the last on a
day synthesized by the estimator for `exEstimateInput`. -/
theorem status_spec_witness :
    dayStatus true [] = "N" ∧ dayStatus false [] = "A" ∧
    dayStatus false [3] = "V" ∧ dayStatus true [] ≠ "V" ∧
    dayStatus ((estimate_missing_days exEstimateInput).2.getD 1 false) [] = "N" :=
  ⟨(status_spec true []).1 rfl, (status_spec false []).2.1 rfl rfl,
   (status_spec false [3]).2.2.1 rfl (by simp),
   (status_spec true []).2.2.2.1 rfl,
   (status_spec ((estimate_missing_days exEstimateInput).2.getD 1 false) []).2.2.2.2
     exEstimateInput 1 (by decide)⟩

/-- Helper: a list of days that are all non-missing maps to all-`false`. -/
theorem map_is_all_missing_eq_replicate (A : List Grid)
    (hA : ∀ g ∈ A, is_all_missing g = false) :
    A.map is_all_missing = List.replicate A.length false := by
  induction A with
  | nil => rfl
  | cons g rest ih =>
    simp only [List.map_cons, List.length_cons, List.replicate_succ]
    rw [hA g (by simp), ih (fun g' hg' => hA g' (by simp [hg']))]

/-- Helper: the segment scan skips a block of non-missing days. -/
theorem missing_segments_go_false (k : Nat) : ∀ (i : Nat) (rest : List Bool),
    missing_segments_go i none (List.replicate k false ++ rest)
      = missing_segments_go (i + k) none rest := by
  induction k with
  | zero => intro i rest; rfl
  | succ m ih =>
    intro i rest
    rw [List.replicate_succ, List.cons_append]
    show missing_segments_go (i+1) none (List.replicate m false ++ rest) = _
    rw [ih]
    congr 1
    omega

/-- Helper: the segment scan crosses a block of missing days keeping the
open segment start. -/
theorem missing_segments_go_true (k : Nat) : ∀ (i s : Nat) (rest : List Bool),
    missing_segments_go i (some s) (List.replicate k true ++ rest)
      = missing_segments_go (i + k) (some s) rest := by
  induction k with
  | zero => intro i s rest; rfl
  | succ m ih =>
    intro i s rest
    rw [List.replicate_succ, List.cons_append]
    show missing_segments_go (i+1) (some s) (List.replicate m true ++ rest) = _
    rw [ih]
    congr 1
    omega

/-- Helper: the maximum of `0..k`. -/
theorem opt_max_range_succ (k : Nat) : opt_max (List.range (k+1)) = some k := by
  induction k with
  | zero => rfl
  | succ m ih =>
    rw [List.range_succ]
    show List.foldl _ none (List.range (m+1) ++ [m+1]) = _
    rw [List.foldl_append]
    show (match opt_max (List.range (m+1)) with
          | none => some (m+1) | some a => some (max a (m+1))) = _
    rw [ih]
    simp [Nat.max_eq_right (Nat.le_succ m)]

/-- Helper: a filter of `range n` keeping exactly the indices below `k`. -/
theorem filter_range_lt (k : Nat) : ∀ (n : Nat), k ≤ n → ∀ (p : Nat → Bool),
    (∀ d, d < n → p d = decide (d < k)) → (List.range n).filter p = List.range k := by
  intro n
  induction n with
  | zero =>
    intro h p _
    have : k = 0 := Nat.le_zero.mp h
    subst this; rfl
  | succ m ih =>
    intro h p hp
    rw [List.range_succ, List.filter_append]
    by_cases hmk : m < k
    · have hk : k = m + 1 := Nat.le_antisymm h hmk
      subst hk
      have h1 : (List.range m).filter p = List.range m := by
        apply List.filter_eq_self.mpr
        intro x hx
        rw [hp x (Nat.lt_succ_of_lt (List.mem_range.mp hx))]
        simp [Nat.lt_succ_of_lt (List.mem_range.mp hx)]
      have h2 : [m].filter p = [m] := by
        have := hp m (Nat.lt_succ_self m)
        simp only [List.filter, this]
        simp
      rw [h1, h2, ← List.range_succ]
    · have hkm : k ≤ m := Nat.not_lt.mp hmk
      have h1 := ih hkm p (fun d hd => hp d (Nat.lt_succ_of_lt hd))
      have h2 : [m].filter p = [] := by
        have := hp m (Nat.lt_succ_self m)
        simp only [List.filter, this]
        simp [Nat.not_lt.mpr hkm]
      rw [h1, h2, List.append_nil]

/-- Helper: `getD` positions in the three-block status list. -/
theorem status_getD (k r d : Nat) :
    (List.replicate k false ++ (List.replicate r true ++ [false, false])).getD d true
      = if d < k then false else if d < k + r then true
        else if d < k + r + 2 then false else true := by
  rw [List.getD_eq_getElem?_getD]
  rcases Nat.lt_or_ge d k with h | h
  · rw [List.getElem?_append_left (by simpa using h)]
    simp [List.getElem?_replicate, h]
  · rw [List.getElem?_append_right (by simpa using h)]
    rcases Nat.lt_or_ge d (k + r) with h2 | h2
    · rw [List.getElem?_append_left (by simp; omega)]
      rw [List.getElem?_replicate]
      have : d - k < r := by omega
      simp [this, h2, Nat.not_lt.mpr h]
    · rw [List.getElem?_append_right (by simp; omega)]
      simp only [List.length_replicate]
      rcases Nat.lt_or_ge d (k + r + 2) with h3 | h3
      · have : d - k - r = 0 ∨ d - k - r = 1 := by omega
        rcases this with h4 | h4 <;>
          simp [h4, Nat.not_lt.mpr h, Nat.not_lt.mpr h2, h3]
      · have h5 : ([false, false] : List Bool)[d - k - r]? = none := by
          rw [List.getElem?_eq_none]
          simp; omega
        rw [h5]
        simp [Nat.not_lt.mpr h, Nat.not_lt.mpr h2, Nat.not_lt.mpr h3]

/-- Helper: `prev_day` at the start of the missing run is the day just
before it (every earlier day in this scenario is non-missing). -/
theorem prev_day_status (a r : Nat) :
    prev_day (List.replicate (a+1) false ++ (List.replicate r true ++ [false, false])) (a+1)
      = some a := by
  unfold prev_day
  have hlen : (List.replicate (a+1) false ++ (List.replicate r true ++ [false, false])).length
      = a + 1 + r + 2 := by simp; omega
  rw [hlen]
  rw [filter_range_lt (a+1) (a+1+r+2) (by omega)]
  · exact opt_max_range_succ a
  · intro d _
    rw [status_getD]
    rcases Nat.lt_or_ge d (a+1) with h | h
    · simp [h]
    · have h1 : ¬ d < a + 1 := Nat.not_lt.mpr h
      rcases Nat.lt_or_ge d (a+1+r) with h2 | h2
      · simp [h1, h2]
      · rcases Nat.lt_or_ge d (a+1+r+2) with h3 | h3
        · simp [h1, Nat.not_lt.mpr h2, h3]
        · simp [h1, Nat.not_lt.mpr h2, Nat.not_lt.mpr h3]

/-- Helper: `next_day` of the day terminating the run skips that day and
lands on the one after it. -/
theorem next_day_status (a r : Nat) :
    next_day (List.replicate (a+1) false ++ (List.replicate r true ++ [false, false])) (a+1+r)
      = some (a+r+2) := by
  unfold next_day
  have hlen : (List.replicate (a+1) false ++ (List.replicate r true ++ [false, false])).length
      = a + 1 + r + 2 := by simp; omega
  rw [hlen]
  have hsplit : a + 1 + r + 2 = (a + r + 2) + 1 := by omega
  rw [hsplit, List.range_succ, List.filter_append]
  have h1 : (List.range (a+r+2)).filter
      (fun d => decide (a+1+r < d) && !((List.replicate (a+1) false ++
        (List.replicate r true ++ [false, false])).getD d true)) = [] := by
    rw [List.filter_eq_nil_iff]
    intro d hd
    have : d < a + r + 2 := List.mem_range.mp hd
    simp only [Bool.and_eq_true, decide_eq_true_eq, Bool.not_eq_true']
    intro hcon
    omega
  have h2 : ([a+r+2] : List Nat).filter
      (fun d => decide (a+1+r < d) && !((List.replicate (a+1) false ++
        (List.replicate r true ++ [false, false])).getD d true)) = [a+r+2] := by
    have hst := status_getD (a+1) r (a+r+2)
    have hval : (List.replicate (a+1) false ++
        (List.replicate r true ++ [false, false])).getD (a+r+2) true = false := by
      rw [hst]
      have h1 : ¬ a + r + 2 < a + 1 := by omega
      have h2 : ¬ a + r + 2 < a + 1 + r := by omega
      have h3 : a + r + 2 < a + 1 + r + 2 := by omega
      simp [h1, h2, h3]
    simp only [List.filter, hval]
    have : a + 1 + r < a + r + 2 := by omega
    simp [this]
  rw [h1, h2, List.nil_append]
  rfl

/-- Helper: the both-sides fill loop rewrites exactly the run's days. -/
theorem fill_run_both_spec (r : Nat) : ∀ (X Y : List Grid) (F G : List Bool)
    (mx step : ℤ), F.length = X.length → r ≤ Y.length → r ≤ G.length →
    fill_run_both (X ++ Y) (F ++ G) X.length r mx step
      = (X ++ (((List.range r).map fun i : ℕ => synth_day (mx + (i : ℤ) * step) step) ++ Y.drop r),
         F ++ (List.replicate r true ++ G.drop r)) := by
  induction r with
  | zero => intro X Y F G mx step hF hY hG; simp [fill_run_both]
  | succ m ih =>
    intro X Y F G mx step hF hY hG
    unfold fill_run_both
    rw [List.range_succ, List.foldl_append]
    have ihm := ih X Y F G mx step hF (by omega) (by omega)
    unfold fill_run_both at ihm
    rw [ihm]
    simp only [List.foldl_cons, List.foldl_nil]
    rw [Prod.mk.injEq]
    refine ⟨?_, ?_⟩
    · rw [List.set_append_right _ _ (by omega)]
      have hd : (((List.range m).map fun i : ℕ => synth_day (mx + (i : ℤ) * step) step) ++
          Y.drop m).set (X.length + m - X.length) (synth_day (mx + (m : ℤ) * step) step)
          = ((List.range m ++ [m]).map fun i : ℕ => synth_day (mx + (i : ℤ) * step) step)
              ++ Y.drop (m+1) := by
        have hidx : X.length + m - X.length = m := by omega
        rw [hidx]
        rw [List.set_append_right _ _ (by simp)]
        have hz : m - ((List.range m).map fun i : ℕ =>
            synth_day (mx + (i : ℤ) * step) step).length = 0 := by
          simp
        rw [hz]
        have hdrop : Y.drop m = Y[m] :: Y.drop (m+1) := List.drop_eq_getElem_cons (by omega)
        rw [hdrop]
        rw [List.set_cons_zero]
        rw [List.map_append]
        simp
      rw [hd]
    · rw [List.set_append_right _ _ (by omega)]
      have hidx : X.length + m - F.length = m := by omega
      rw [hidx]
      rw [List.set_append_right _ _ (by simp)]
      have hz : m - (List.replicate m true).length = 0 := by simp
      rw [hz]
      have hdrop : G.drop m = G[m] :: G.drop (m+1) := List.drop_eq_getElem_cons (by omega)
      rw [hdrop]
      rw [List.set_cons_zero]
      simp [List.replicate_succ']

/-- Helper: every fully-missing grid passes `is_all_missing`. -/
theorem is_all_missing_allMissingGrid : is_all_missing allMissingGrid = true := by decide

/-- Helper: slot `j` of a synthesized day. -/
theorem synth_day_getD (v st : ℤ) (j : ℕ) (hj : j ≤ 96) :
    (synth_day v st).getD j none = some (v + Int.fdiv ((j : ℤ) * st) 96) := by
  unfold synth_day
  rw [List.getD_eq_getElem?_getD, List.getElem?_map, List.getElem?_range (by omega)]
  rfl

/-- C2 (amended): for a maximal run of `r ≥ 1` fully-missing days preceded
by non-missing days and terminated by a non-missing day `Q` that is itself
followed by a non-missing day `Q'`, the estimator uses `prevMax = max P`
and `nextMin = min Q'` — the minimum of the grid strictly *after* the day
terminating the run, not of the nearest following grid — computes
`step = floor((nextMin - prevMax) / (r + 1))`, and synthesizes day
`s + i` (offsets counted from 0, so with prevMax 500, nextMin 560 and a
two-day run the synthesized days start at 500 and 520) with first slot
`prevMax + i*step` and slot `j` equal to `firstSlot + floor(j*step/96)`;
each synthesized day is marked fully estimated. -/
theorem estimator_amended (A : List Grid) (P Q Q' : Grid) (r : ℕ) (mx mn : ℤ)
    (hA : ∀ g ∈ A, is_all_missing g = false)
    (hP : is_all_missing P = false) (hQ : is_all_missing Q = false)
    (hQ' : is_all_missing Q' = false) (hr : 1 ≤ r)
    (hmx : grid_max P = some mx) (hmn : grid_min Q' = some mn) :
    (estimate_missing_days (A ++ [P] ++ List.replicate r allMissingGrid ++ [Q, Q'])).1
      = A ++ [P] ++ ((List.range r).map fun i : ℕ =>
          synth_day (mx + (i : ℤ) * Int.fdiv (mn - mx) (r + 1)) (Int.fdiv (mn - mx) (r + 1)))
        ++ [Q, Q'] ∧
    (estimate_missing_days (A ++ [P] ++ List.replicate r allMissingGrid ++ [Q, Q'])).2
      = List.replicate (A.length + 1) false ++ List.replicate r true ++ [false, false] ∧
    (∀ i j : ℕ, i < r → j ≤ 96 →
      ((estimate_missing_days (A ++ [P] ++ List.replicate r allMissingGrid ++ [Q, Q'])).1.getD
          (A.length + 1 + i) []).getD j none
        = some (mx + (i : ℤ) * Int.fdiv (mn - mx) (r + 1)
            + Int.fdiv ((j : ℤ) * Int.fdiv (mn - mx) (r + 1)) 96)) := by
  set a := A.length with ha
  set step := Int.fdiv (mn - mx) (r + 1) with hstep
  set daily := A ++ [P] ++ List.replicate r allMissingGrid ++ [Q, Q'] with hdaily
  have hstatus : daily.map is_all_missing
      = List.replicate (a+1) false ++ (List.replicate r true ++ [false, false]) := by
    rw [hdaily]
    simp only [List.map_append, List.map_cons, List.map_nil, List.map_replicate]
    rw [map_is_all_missing_eq_replicate A hA, hP, hQ, hQ', is_all_missing_allMissingGrid]
    rw [List.replicate_succ' (n := a)]
    simp [List.append_assoc]
  have hlen : daily.length = a + 1 + r + 2 := by rw [hdaily]; simp; omega
  have hsegs : missing_segments (daily.map is_all_missing) = [(a+1, a+1+r)] := by
    rw [hstatus]
    unfold missing_segments
    rw [missing_segments_go_false (a+1) 0]
    obtain ⟨m, rfl⟩ : ∃ m, r = m + 1 := ⟨r - 1, by omega⟩
    rw [List.replicate_succ, List.cons_append]
    show missing_segments_go (0 + (a+1) + 1) (some (0 + (a+1)))
        (List.replicate m true ++ [false, false]) = _
    rw [missing_segments_go_true m]
    show (0 + (a+1), 0 + (a+1) + 1 + m) :: missing_segments_go _ none [false] = _
    have : missing_segments_go (0 + (a + 1) + 1 + m + 1) none [false] = [] := rfl
    rw [this]
    congr 2 <;> omega
  have hP_at : daily.getD a [] = P := by
    rw [hdaily, List.getD_eq_getElem?_getD]
    rw [List.append_assoc, List.append_assoc]
    rw [List.getElem?_append_right (by simp [ha])]
    simp [ha]
  have hQ'_at : daily.getD (a+r+2) [] = Q' := by
    rw [hdaily, List.getD_eq_getElem?_getD]
    rw [List.append_assoc, List.append_assoc]
    rw [List.getElem?_append_right (by simp [ha]; omega)]
    have h1 : a + r + 2 - A.length = r + 2 := by omega
    rw [h1]
    rw [List.cons_append, List.getElem?_cons_succ, List.nil_append]
    have h2 : (List.replicate r allMissingGrid).length ≤ r + 1 := by simp
    rw [List.getElem?_append_right h2]
    have h3 : r + 1 - (List.replicate r allMissingGrid).length = 1 := by simp
    rw [h3]
    rfl
  have hmain : estimate_missing_days daily
      = (A ++ [P] ++ (((List.range r).map fun i : ℕ => synth_day (mx + (i : ℤ) * step) step)
          ++ [Q, Q']),
         List.replicate (a+1) false ++ (List.replicate r true ++ [false, false])) := by
    show (missing_segments (daily.map is_all_missing)).foldl
        (estimate_segment (daily.map is_all_missing))
        (daily, List.replicate daily.length false) = _
    rw [hsegs]
    simp only [List.foldl_cons, List.foldl_nil]
    unfold estimate_segment
    simp only
    rw [hstatus]
    rw [prev_day_status a r, next_day_status a r]
    simp only [hP_at, hQ'_at, hmx, hmn]
    have hsub : (a + 1 + r) - (a + 1) = r := by omega
    rw [hsub]
    have hX : (A ++ [P]).length = a + 1 := by simp [ha]
    have hflags : List.replicate daily.length false
        = List.replicate (a+1) false ++ List.replicate (r+2) false := by
      rw [hlen, ← List.replicate_add]
      congr 1
    have hshape : daily = (A ++ [P]) ++ (List.replicate r allMissingGrid ++ [Q, Q']) := by
      rw [hdaily]; simp [List.append_assoc]
    rw [hflags, hshape]
    have := fill_run_both_spec r (A ++ [P]) (List.replicate r allMissingGrid ++ [Q, Q'])
      (List.replicate (a+1) false) (List.replicate (r+2) false) mx step
      (by simp [ha]) (by simp) (by simp)
    rw [hX] at this
    rw [this]
    have hdropY : (List.replicate r allMissingGrid ++ [Q, Q']).drop r = [Q, Q'] := by
      rw [List.drop_left' (by simp)]
    have hdropG : (List.replicate (r+2) false).drop r = [false, false] := by
      have : List.replicate (r+2) false
          = List.replicate r false ++ List.replicate 2 false := by
        rw [← List.replicate_add]
      rw [this, List.drop_left' (by simp)]
      rfl
    rw [hdropY, hdropG]
  refine ⟨?_, ?_, ?_⟩
  · rw [hmain]; simp [List.append_assoc]
  · rw [hmain]; simp [List.append_assoc]
  · intro i j hi hj
    rw [hmain]
    simp only
    have hday : (A ++ [P] ++ (((List.range r).map fun i : ℕ =>
        synth_day (mx + (i : ℤ) * step) step) ++ [Q, Q'])).getD (a + 1 + i) []
        = synth_day (mx + (i : ℤ) * step) step := by
      rw [List.getD_eq_getElem?_getD]
      rw [List.append_assoc]
      rw [List.getElem?_append_right (by simp [ha]; omega)]
      have h1 : a + 1 + i - A.length = i + 1 := by omega
      rw [h1, List.cons_append, List.getElem?_cons_succ, List.nil_append]
      have h2 : i < ((List.range r).map fun i : ℕ =>
          synth_day (mx + (i : ℤ) * step) step).length := by
        simp
        omega
      rw [List.getElem?_append_left h2]
      have h3 : i < r := hi
      rw [List.getElem?_map, List.getElem?_range h3]
      rfl
    rw [hday]
    exact synth_day_getD _ _ j hj

set_option maxRecDepth 100000 in
/-- C2 amended-theorem witness: instantiated on a window with `A = []`,
prev day constant 500, a two-day missing run, terminating day constant
1000 and the day after it constant 560. -/
theorem estimator_amended_witness :
    (estimate_missing_days ([] ++ [flatGrid 500] ++ List.replicate 2 allMissingGrid
        ++ [flatGrid 1000, flatGrid 560])).2
      = List.replicate 1 false ++ List.replicate 2 true ++ [false, false] :=
  (estimator_amended [] (flatGrid 500) (flatGrid 1000) (flatGrid 560) 2 500 560
    (by simp) (by decide) (by decide) (by decide) (by omega)
    (by decide) (by decide)).2.1

/-- Helper: the digit check of `create_numeric_15_3` trips exactly when
the quantised absolute value reaches `10^12`, i.e. when the formatted
value (12 integer digits + 3 decimals = 15) would need a 16th digit. -/
theorem intDigits_gt_iff (q : ℚ) : 15 < intDigits q + 3 ↔ (10^12 : ℚ) ≤ |q| := by
  have h0 : (0:ℤ) ≤ ⌊|q|⌋ := Int.floor_nonneg.mpr (abs_nonneg q)
  have key : 15 < intDigits q + 3 ↔ 10^12 ≤ Int.toNat ⌊|q|⌋ := by
    unfold intDigits
    constructor
    · intro h
      have hlen : 13 ≤ (Nat.digits 10 (Int.toNat ⌊|q|⌋)).length := by omega
      have hne : Int.toNat ⌊|q|⌋ ≠ 0 := by
        intro hz
        rw [hz] at hlen
        simp at hlen
      have hb := Nat.base_pow_length_digits_le 10 (Int.toNat ⌊|q|⌋) (by norm_num) hne
      have h2 : (10:ℕ)^13 ≤ 10^(Nat.digits 10 (Int.toNat ⌊|q|⌋)).length :=
        Nat.pow_le_pow_right (by norm_num) hlen
      have h3 : (10:ℕ)^13 ≤ 10 * Int.toNat ⌊|q|⌋ := le_trans h2 hb
      have h4 : (10:ℕ)^13 = 10 * 10^12 := by norm_num
      rw [h4] at h3
      exact Nat.le_of_mul_le_mul_left h3 (by norm_num)
    · intro h
      by_contra hcon
      push_neg at hcon
      have hlen : (Nat.digits 10 (Int.toNat ⌊|q|⌋)).length ≤ 12 := by
        have := Nat.max_le.mp (by omega : max 1 (Nat.digits 10 (Int.toNat ⌊|q|⌋)).length ≤ 12)
        exact this.2
      have h1 : Int.toNat ⌊|q|⌋ < 10 ^ (Nat.digits 10 (Int.toNat ⌊|q|⌋)).length :=
        Nat.lt_base_pow_length_digits (by norm_num)
      have h2 : (10:ℕ) ^ (Nat.digits 10 (Int.toNat ⌊|q|⌋)).length ≤ 10^12 :=
        Nat.pow_le_pow_right (by norm_num) hlen
      have h3 : Int.toNat ⌊|q|⌋ < 10^12 := lt_of_lt_of_le h1 h2
      exact absurd h (Nat.not_le.mpr h3)
  rw [key]
  constructor
  · intro h
    have h1 : (10^12 : ℤ) ≤ ⌊|q|⌋ := by
      rw [← Int.toNat_of_nonneg h0]
      exact_mod_cast h
    calc (10^12 : ℚ) ≤ (⌊|q|⌋ : ℚ) := by exact_mod_cast h1
    _ ≤ |q| := Int.floor_le _
  · intro h
    have h1 : (10^12 : ℤ) ≤ ⌊|q|⌋ := Int.le_floor.mpr (by exact_mod_cast h)
    have h2 : (10^12 : ℤ) ≤ (Int.toNat ⌊|q|⌋ : ℤ) := by rwa [Int.toNat_of_nonneg h0]
    exact_mod_cast h2

/-- Helper: one failing meter makes the whole `expand_and_format` loop
fail (the exception propagates; no record list is returned). -/
theorem expand_error_of_mem (rows : List MeterRow) (row : MeterRow) (e : String)
    (hmem : row ∈ rows)
    (herr : offset_plus_max_reading row.offset_usage row.litter_factor row.values
      = Except.error e) :
    ∃ e', expand_cumulative_totals rows = Except.error e' := by
  induction rows with
  | nil => simp at hmem
  | cons hd tl ih =>
    rcases List.mem_cons.mp hmem with rfl | hmem'
    · refine ⟨e, ?_⟩
      unfold expand_cumulative_totals
      rw [herr]
    · unfold expand_cumulative_totals
      cases hres : offset_plus_max_reading hd.offset_usage hd.litter_factor hd.values with
      | error e'' => exact ⟨e'', rfl⟩
      | ok v =>
        obtain ⟨e', h'⟩ := ih hmem'
        rw [h']
        exact ⟨e', rfl⟩

/-- C8 (amended): the cumulative total for a meter/day is
`(fixedOffset / 1000) + maxReading / (scaleFactor / 1000)` rounded to 3
decimals, and an overflow error is raised if and only if the formatted
value would need more than 15 digits (quantised absolute value at least
`10^12`); but the overflow is *not* confined to that single record: one
failing meter aborts the whole day's formatting loop, so no records are
produced for that file at all. -/
theorem cumulative_overflow_amended (o : ℤ) (lf : ℚ) (g : Grid)
    (rows : List MeterRow) (row : MeterRow) (e : String)
    (hmem : row ∈ rows)
    (herr : offset_plus_max_reading row.offset_usage row.litter_factor row.values
      = Except.error e) :
    (offset_plus_max_reading o lf g
      = create_numeric_15_3
          ((o : ℚ) / 1000 + (((grid_max g).getD 0 : ℤ) : ℚ) / ((1 * lf) / 1000))) ∧
    ((∃ e', offset_plus_max_reading o lf g = Except.error e') ↔
      (10^12 : ℚ) ≤
        |roundHalfUp3 ((o : ℚ) / 1000 + (((grid_max g).getD 0 : ℤ) : ℚ) / ((1 * lf) / 1000))|) ∧
    (∀ v, offset_plus_max_reading o lf g = Except.ok v →
      v = roundHalfUp3 ((o : ℚ) / 1000 + (((grid_max g).getD 0 : ℤ) : ℚ) / ((1 * lf) / 1000))) ∧
    (∃ e', expand_cumulative_totals rows = Except.error e') := by
  refine ⟨rfl, ?_, ?_, expand_error_of_mem rows row e hmem herr⟩
  · unfold offset_plus_max_reading create_numeric_15_3
    by_cases hc : intDigits (roundHalfUp3
        ((o : ℚ) / 1000 + (((grid_max g).getD 0 : ℤ) : ℚ) / ((1 * lf) / 1000))) + 3 > 15
    · rw [if_pos hc]
      simp only [Except.error.injEq, exists_eq']
      exact ⟨fun _ => (intDigits_gt_iff _).mp hc, fun _ => trivial⟩
    · rw [if_neg hc]
      constructor
      · rintro ⟨e', he'⟩
        exact absurd he' (by simp)
      · intro habs
        exact absurd ((intDigits_gt_iff _).mpr habs) hc
  · intro v hv
    unfold offset_plus_max_reading create_numeric_15_3 at hv
    by_cases hc : intDigits (roundHalfUp3
        ((o : ℚ) / 1000 + (((grid_max g).getD 0 : ℤ) : ℚ) / ((1 * lf) / 1000))) + 3 > 15
    · rw [if_pos hc] at hv
      exact absurd hv (by simp)
    · rw [if_neg hc] at hv
      exact (Except.ok.injEq _ _).mp hv.symm

/-- Helper: maximum of a constant grid. -/
theorem opt_maxZ_replicate (n : ℕ) (v : ℤ) : opt_maxZ (List.replicate (n+1) v) = some v := by
  induction n with
  | zero => rfl
  | succ m ih =>
    rw [List.replicate_succ']
    unfold opt_maxZ at ih ⊢
    rw [List.foldl_append, ih]
    simp

/-- Helper: `grid_max` of a constant 97-slot grid. -/
theorem grid_max_flatGrid (v : ℤ) : grid_max (flatGrid v) = some v := by
  unfold grid_max flatGrid
  have h1 : List.filterMap id (List.replicate 97 (some v)) = List.replicate 97 v := by
    simp [List.filterMap_replicate]
  rw [h1]
  exact opt_maxZ_replicate 96 v

/-- Helper: a failing head meter short-circuits the loop. -/
theorem expand_cons_error (r : MeterRow) (rest : List MeterRow) (e : String)
    (h : offset_plus_max_reading r.offset_usage r.litter_factor r.values = Except.error e) :
    expand_cumulative_totals (r :: rest) = Except.error e := by
  unfold expand_cumulative_totals
  rw [h]

/-- Helper: a succeeding head meter defers to the rest of the loop. -/
theorem expand_cons_ok (r : MeterRow) (rest : List MeterRow) (v : ℚ)
    (h : offset_plus_max_reading r.offset_usage r.litter_factor r.values = Except.ok v) :
    expand_cumulative_totals (r :: rest)
      = match expand_cumulative_totals rest with
        | Except.error e => Except.error e
        | Except.ok vs => Except.ok (v :: vs) := by
  conv_lhs => rw [expand_cumulative_totals]
  rw [h]

/-- Helper: the small meter's cumulative total formats fine. -/
theorem meter_ok_5 : offset_plus_max_reading 0 1 (flatGrid 5) = Except.ok 5000 := by
  unfold offset_plus_max_reading
  rw [grid_max_flatGrid]
  show create_numeric_15_3 ((0:ℚ)/1000 + (((5:ℤ):ℚ))/((1*1)/1000)) = _
  have hX : ((0:ℚ)/1000 + (((5:ℤ):ℚ))/((1*1)/1000)) = 5000 := by norm_num
  rw [hX]
  have hr : roundHalfUp3 5000 = 5000 := by
    unfold roundHalfUp3 halfUpUnit
    norm_num
  have hd : intDigits 5000 = 4 := by
    unfold intDigits
    have h2 : ⌊|(5000:ℚ)|⌋ = 5000 := by norm_num
    rw [h2]
    have h3 : Int.toNat (5000:ℤ) = 5000 := rfl
    rw [h3]
    norm_num
  unfold create_numeric_15_3
  rw [hr, hd]
  norm_num

/-- Helper: the 17-digit meter's cumulative total overflows. -/
theorem meter_overflow : offset_plus_max_reading 0 1 (flatGrid 10000000000000)
    = Except.error "Value exceeds Numeric(15, 3) limits" := by
  unfold offset_plus_max_reading
  rw [grid_max_flatGrid]
  show create_numeric_15_3 ((0:ℚ)/1000 + (((10000000000000:ℤ):ℚ))/((1*1)/1000)) = _
  have hX : ((0:ℚ)/1000 + (((10000000000000:ℤ):ℚ))/((1*1)/1000)) = 10000000000000000 := by
    norm_num
  rw [hX]
  have hr : roundHalfUp3 10000000000000000 = 10000000000000000 := by
    unfold roundHalfUp3 halfUpUnit
    norm_num
  have hd : intDigits 10000000000000000 = 17 := by
    unfold intDigits
    have h2 : ⌊|(10000000000000000:ℚ)|⌋ = 10000000000000000 := by norm_num
    rw [h2]
    have h3 : Int.toNat (10000000000000000:ℤ) = 10000000000000000 := rfl
    rw [h3]
    norm_num
  unfold create_numeric_15_3
  rw [hr, hd]
  norm_num

/-- C8 counterexample: a day with two meters, the first well within
range, the second requiring 17 digits.  The loop returns the overflow
error and produces no record list at all — the first meter's record is
*not* produced, contradicting "other records are still produced". -/
theorem overflow_counterexample :
    offset_plus_max_reading 0 1 (flatGrid 5) = Except.ok 5000 ∧
    expand_cumulative_totals
      [⟨0, 1, flatGrid 5⟩, ⟨0, 1, flatGrid 10000000000000⟩]
      = Except.error "Value exceeds Numeric(15, 3) limits" := by
  refine ⟨meter_ok_5, ?_⟩
  have t1 : expand_cumulative_totals [(⟨0, 1, flatGrid 10000000000000⟩ : MeterRow)]
      = Except.error "Value exceeds Numeric(15, 3) limits" :=
    expand_cons_error _ _ _ meter_overflow
  have t2 := expand_cons_ok ⟨0, 1, flatGrid 5⟩ [⟨0, 1, flatGrid 10000000000000⟩] 5000 meter_ok_5
  rw [t1] at t2
  simpa using t2

/-- C8 amended-theorem witness: instantiated on the two-meter day above. -/
theorem cumulative_overflow_amended_witness :
    ∃ e', expand_cumulative_totals
      [(⟨0, 1, flatGrid 5⟩ : MeterRow), ⟨0, 1, flatGrid 10000000000000⟩]
      = Except.error e' :=
  (cumulative_overflow_amended 0 1 (flatGrid 5)
    [⟨0, 1, flatGrid 5⟩, ⟨0, 1, flatGrid 10000000000000⟩]
    ⟨0, 1, flatGrid 10000000000000⟩ "Value exceeds Numeric(15, 3) limits"
    (by simp) meter_overflow).2.2.2

/-- Helper: `getD` past a prefix. -/
theorem getD_concat (P X : Grid) (j : ℕ) :
    (P ++ X).getD (P.length + j) none = X.getD j none := by
  rw [List.getD_eq_getElem?_getD, List.getD_eq_getElem?_getD]
  rw [List.getElem?_append_right (by omega)]
  congr 2
  omega

/-- Helper: a shifted `range` of positive length starts at its shift. -/
theorem range_shift_cons (c k : ℕ) :
    (List.range (k+1)).map (c + ·) = c :: (List.range k).map ((c+1) + ·) := by
  rw [List.range_succ_eq_map]
  simp only [List.map_cons, Nat.add_zero, List.map_map]
  congr 1
  apply List.map_congr_left
  intro x _
  simp only [Function.comp_apply]
  omega

/-- Helper: a shifted `range` splits at any point. -/
theorem range_shift_split (c k m : ℕ) :
    (List.range (k + m)).map (c + ·)
      = (List.range k).map (c + ·) ++ (List.range m).map ((c + k) + ·) := by
  rw [List.range_add, List.map_append, List.map_map]
  congr 1
  apply List.map_congr_left
  intro x _
  simp only [Function.comp_apply]
  omega

/-- Helper: the leading back-fill walk on an explicit leading run. -/
theorem fillLead_spec (v w : ℤ) (a : ℕ) : ∀ (i : ℕ) (rest : Grid),
    fillLead v (List.replicate a none ++ some w :: rest) i
      = (List.replicate a (some v) ++ some w :: rest, (List.range a).map (i + ·)) := by
  induction a with
  | zero => intro i rest; simp [fillLead]
  | succ m ih =>
    intro i rest
    rw [List.replicate_succ, List.cons_append]
    show (let p := fillLead v (List.replicate m none ++ some w :: rest) (i+1)
          ((some v : Option ℤ) :: p.1, i :: p.2)) = _
    rw [ih (i+1)]
    rw [range_shift_cons i m]
    simp [List.replicate_succ]

/-- Helper: the leading phase on a grid with `a` leading missing slots
followed by a present slot. -/
theorem interp_prefill_spec (a : ℕ) (L : ℤ) (rest : Grid) :
    interp_prefill (List.replicate a none ++ some L :: rest)
      = (List.replicate a (some L) ++ some L :: rest, List.range a) := by
  cases a with
  | zero => simp [interp_prefill]
  | succ m =>
    rw [List.replicate_succ, List.cons_append]
    show (match first_non_hash (none :: (List.replicate m none ++ some L :: rest)) with
          | some v => fillLead v (none :: (List.replicate m none ++ some L :: rest)) 0
          | none => ((none :: (List.replicate m none ++ some L :: rest) : Grid), [])) = _
    have hf : first_non_hash (none :: (List.replicate m none ++ some L :: rest)) = some L := by
      unfold first_non_hash
      simp [List.filterMap_cons, List.filterMap_append]
    rw [hf]
    show fillLead L (none :: (List.replicate m none ++ some L :: rest)) 0 = _
    have hmap : (List.range (m+1)).map (0 + ·) = List.range (m+1) := by
      have h1 : (List.range (m+1)).map (0 + ·) = (List.range (m+1)).map id :=
        List.map_congr_left (fun x _ => by simp)
      rw [h1, List.map_id]
    have := fillLead_spec L L (m+1) 0 rest
    rw [List.replicate_succ, List.cons_append, hmap] at this
    rw [this]

/-- Helper: the scan body crosses a run of missing slots and stops at
the present slot bounding it, given enough loop budget. -/
theorem scan_end_go_spec (k : ℕ) : ∀ (fuel : ℕ) (X B : Grid) (ev : ℤ), k < fuel →
    scan_end_go (X ++ (List.replicate k none ++ some ev :: B)) fuel X.length
      = X.length + k := by
  induction k with
  | zero =>
    intro fuel X B ev hf
    obtain ⟨f, rfl⟩ : ∃ f, fuel = f + 1 := ⟨fuel - 1, by omega⟩
    rw [scan_end_go]
    rw [if_pos (by simp)]
    have hg : (X ++ (List.replicate 0 none ++ some ev :: B)).getD X.length none = some ev := by
      have := getD_concat X (List.replicate 0 none ++ some ev :: B) 0
      simpa using this
    rw [hg]
    rfl
  | succ m ih =>
    intro fuel X B ev hf
    obtain ⟨f, rfl⟩ : ∃ f, fuel = f + 1 := ⟨fuel - 1, by omega⟩
    rw [scan_end_go]
    rw [if_pos (by simp)]
    have hg : (X ++ (List.replicate (m+1) none ++ some ev :: B)).getD X.length none = none := by
      have := getD_concat X (List.replicate (m+1) none ++ some ev :: B) 0
      simpa [List.replicate_succ] using this
    rw [hg]
    have hre : X ++ (List.replicate (m+1) none ++ some ev :: B)
        = (X ++ [none]) ++ (List.replicate m none ++ some ev :: B) := by
      simp [List.replicate_succ]
    rw [hre]
    have hlen : X.length + 1 = (X ++ [(none : Option ℤ)]).length := by simp
    rw [hlen, ih f (X ++ [none]) B ev (by omega)]
    simp
    omega

/-- Helper: the right-end scan crosses a run of missing slots and stops
at the present slot bounding it. -/
theorem scan_end_spec (k : ℕ) (X B : Grid) (ev : ℤ) :
    scan_end (X ++ (List.replicate k none ++ some ev :: B)) X.length = X.length + k := by
  unfold scan_end
  exact scan_end_go_spec k _ X B ev (by simp)

/-- Helper: the scan body over a trailing all-missing run reaches the
end of the grid when the budget is the run's length. -/
theorem scan_end_go_tail_spec (k : ℕ) : ∀ (X : Grid),
    scan_end_go (X ++ List.replicate k none) k X.length = X.length + k := by
  induction k with
  | zero =>
    intro X
    rfl
  | succ m ih =>
    intro X
    rw [scan_end_go]
    rw [if_pos (by simp)]
    have hg : (X ++ List.replicate (m+1) none).getD X.length none = none := by
      have := getD_concat X (List.replicate (m+1) none) 0
      simpa [List.replicate_succ] using this
    rw [hg]
    have hre : X ++ List.replicate (m+1) none
        = (X ++ [none]) ++ List.replicate m none := by
      simp [List.replicate_succ]
    rw [hre]
    have hlen : X.length + 1 = (X ++ [(none : Option ℤ)]).length := by simp
    rw [hlen, ih (X ++ [none])]
    simp
    omega

/-- Helper: the right-end scan over a trailing all-missing run reaches
the end of the grid. -/
theorem scan_end_tail_spec (k : ℕ) (X : Grid) :
    scan_end (X ++ List.replicate k none) X.length = X.length + k := by
  unfold scan_end
  have hc : (X ++ List.replicate k none).length - X.length = k := by simp
  rw [hc]
  exact scan_end_go_tail_spec k X

/-- Helper: the interior gap fill rewrites exactly the gap's slots. -/
theorem fill_gap_spec (g : ℕ) : ∀ (X Y : Grid) (sv delta : ℤ) (s : ℕ),
    X.length = s + 1 → g ≤ Y.length →
    fill_gap (X ++ Y) sv delta s g
      = (X ++ (((List.range g).map fun j : ℕ => some (sv + ((j:ℤ)+1) * delta)) ++ Y.drop g),
         (List.range g).map fun j => s + (j+1)) := by
  induction g with
  | zero => intro X Y sv delta s hX hY; simp [fill_gap]
  | succ m ih =>
    intro X Y sv delta s hX hY
    unfold fill_gap
    rw [List.range_succ, List.foldl_append]
    have ihm := ih X Y sv delta s hX (by omega)
    unfold fill_gap at ihm
    rw [ihm]
    simp only [List.foldl_cons, List.foldl_nil]
    rw [Prod.mk.injEq]
    refine ⟨?_, ?_⟩
    · rw [List.set_append_right _ _ (by omega)]
      have hidx : s + (m + 1) - X.length = m := by omega
      rw [hidx]
      rw [List.set_append_right _ _ (by simp)]
      have hz : m - ((List.range m).map fun j : ℕ =>
          (some (sv + ((j:ℤ)+1) * delta) : Option ℤ)).length = 0 := by
        simp
      rw [hz]
      have hdrop : Y.drop m = Y[m] :: Y.drop (m+1) := List.drop_eq_getElem_cons (by omega)
      rw [hdrop, List.set_cons_zero]
      rw [List.map_append]
      simp
    · rw [List.map_append]
      simp

/-- Helper: the trailing fill loop rewrites exactly the given count of
slots after the boundary. -/
theorem fill_tail_fold_spec (t : ℕ) : ∀ (X Y : Grid) (sv : ℤ) (s : ℕ),
    X.length = s + 1 → t ≤ Y.length →
    (List.range t).foldl
        (fun acc j => (acc.1.set (s+1+j) (some sv), acc.2 ++ [s+1+j])) ((X ++ Y : Grid), [])
      = (X ++ (List.replicate t (some sv) ++ Y.drop t), (List.range t).map fun j => s+1+j) := by
  induction t with
  | zero => intro X Y sv s hX hY; simp
  | succ m ih =>
    intro X Y sv s hX hY
    rw [List.range_succ, List.foldl_append]
    rw [ih X Y sv s hX (by omega)]
    simp only [List.foldl_cons, List.foldl_nil]
    rw [Prod.mk.injEq]
    refine ⟨?_, ?_⟩
    · rw [List.set_append_right _ _ (by omega)]
      have hidx : s + 1 + m - X.length = m := by omega
      rw [hidx]
      rw [List.set_append_right _ _ (by simp)]
      have hz : m - (List.replicate m (some sv) : Grid).length = 0 := by simp
      rw [hz]
      have hdrop : Y.drop m = Y[m] :: Y.drop (m+1) := List.drop_eq_getElem_cons (by omega)
      rw [hdrop, List.set_cons_zero]
      simp [List.replicate_succ']
    · rw [List.map_append]
      simp

/-- Helper: the trailing flat fill on an explicit trailing run. -/
theorem fill_tail_spec (t : ℕ) (X : Grid) (sv : ℤ) (s : ℕ) (hX : X.length = s + 1) :
    fill_tail (X ++ List.replicate t none) sv s
      = (X ++ List.replicate t (some sv), (List.range t).map fun j => s + 1 + j) := by
  unfold fill_tail
  have hc : (X ++ List.replicate t none).length - (s+1) = t := by simp [hX]
  rw [hc]
  rw [fill_tail_fold_spec t X (List.replicate t none) sv s hX (by simp)]
  rw [Prod.mk.injEq]
  refine ⟨?_, rfl⟩
  have hd : (List.replicate t (none : Option ℤ)).drop t = [] := by
    rw [List.drop_replicate]
    simp
  rw [hd]
  simp

/-- Helper: one unfolding of the main scan on a non-empty index list. -/
theorem interp_loop_cons (values : Grid) (filled : List Nat) (i : ℕ) (todo : List ℕ) :
    interp_loop values filled (i :: todo)
      = match values.getD i none with
        | some _ => interp_loop values filled todo
        | none =>
          match i with
          | 0 => interp_loop values filled todo
          | s + 1 =>
            match values.getD s none with
            | none => interp_loop values filled todo
            | some sv =>
              let e := scan_end values (s + 2)
              if e < values.length then
                match values.getD e none with
                | some ev =>
                  let gap := e - s - 1
                  let delta := Int.fdiv (ev - sv) (gap + 1)
                  let p := fill_gap values sv delta s gap
                  interp_loop p.1 (filled ++ p.2) todo
                | none => interp_loop values filled todo
              else
                let p := fill_tail values sv s
                interp_loop p.1 (filled ++ p.2) todo := rfl

/-- Helper: the main scan skips an index holding a present value. -/
theorem interp_loop_skip (values : Grid) (filled : List Nat) (i : ℕ) (todo : List ℕ)
    (h : (values.getD i none).isSome) :
    interp_loop values filled (i :: todo) = interp_loop values filled todo := by
  obtain ⟨w, hw⟩ := Option.isSome_iff_exists.mp h
  rw [interp_loop_cons, hw]

/-- Helper: the main scan skips any block of indices holding present
values. -/
theorem interp_loop_skip_run (I : List ℕ) : ∀ (values : Grid) (filled : List Nat)
    (todo : List ℕ), (∀ i ∈ I, (values.getD i none).isSome) →
    interp_loop values filled (I ++ todo) = interp_loop values filled todo := by
  induction I with
  | nil => intro values filled todo _; rfl
  | cons i I' ih =>
    intro values filled todo h
    rw [List.cons_append, interp_loop_skip values filled i _ (h i (by simp))]
    exact ih values filled todo (fun x hx => h x (by simp [hx]))

/-- Helper: hitting the head of an interior missing run bounded on both
sides fills the whole run by integer-floor linear interpolation and
records the filled indices. -/
theorem interp_loop_gap (P B : Grid) (sv ev : ℤ) (k : ℕ) (filled : List Nat) (todo : List ℕ) :
    interp_loop (P ++ some sv :: (List.replicate (k+1) none ++ some ev :: B)) filled
        ((P.length + 1) :: todo)
      = interp_loop
          (P ++ some sv :: (((List.range (k+1)).map fun j : ℕ =>
              some (sv + ((j:ℤ)+1) * Int.fdiv (ev - sv) ((k:ℤ)+1+1))) ++ some ev :: B))
          (filled ++ (List.range (k+1)).map fun j => P.length + (j+1)) todo := by
  rw [interp_loop_cons]
  have h1 : (P ++ some sv :: (List.replicate (k+1) none ++ some ev :: B)).getD
      (P.length + 1) none = none := by
    rw [getD_concat P _ 1, List.getD_cons_succ]
    rw [List.replicate_succ, List.cons_append, List.getD_cons_zero]
  rw [h1]
  simp only []
  have h2 : (P ++ some sv :: (List.replicate (k+1) none ++ some ev :: B)).getD
      P.length none = some sv := by
    have := getD_concat P (some sv :: (List.replicate (k+1) none ++ some ev :: B)) 0
    simpa using this
  rw [h2]
  simp only []
  have hscan : scan_end (P ++ some sv :: (List.replicate (k+1) none ++ some ev :: B))
      (P.length + 2) = P.length + 2 + k := by
    have hre : P ++ some sv :: (List.replicate (k+1) none ++ some ev :: B)
        = (P ++ [some sv, none]) ++ (List.replicate k none ++ some ev :: B) := by
      simp [List.replicate_succ]
    rw [hre]
    have hlen : P.length + 2 = (P ++ [some sv, (none : Option ℤ)]).length := by simp
    rw [hlen, scan_end_spec k (P ++ [some sv, none]) B ev]
  rw [hscan]
  have hlt : P.length + 2 + k
      < (P ++ some sv :: (List.replicate (k+1) none ++ some ev :: B)).length := by
    simp
    omega
  rw [if_pos hlt]
  have h3 : (P ++ some sv :: (List.replicate (k+1) none ++ some ev :: B)).getD
      (P.length + 2 + k) none = some ev := by
    have harr : P.length + 2 + k = P.length + (k + 2) := by omega
    rw [harr, getD_concat P _ (k+2), List.getD_cons_succ]
    have := getD_concat (List.replicate (k+1) (none : Option ℤ)) (some ev :: B) 0
    simp only [List.length_replicate] at this
    simpa using this
  rw [h3]
  simp only []
  have hgap : P.length + 2 + k - P.length - 1 = k + 1 := by omega
  rw [hgap]
  have hfill := fill_gap_spec (k+1) (P ++ [some sv])
      (List.replicate (k+1) none ++ some ev :: B)
      sv (Int.fdiv (ev - sv) ((k:ℤ)+1+1)) P.length (by simp) (by simp)
  have hre2 : P ++ some sv :: (List.replicate (k+1) none ++ some ev :: B)
      = (P ++ [some sv]) ++ (List.replicate (k+1) none ++ some ev :: B) := by
    simp
  have hdrop : (List.replicate (k+1) none ++ some ev :: B).drop (k+1)
      = some ev :: B := by
    rw [List.drop_left' (by simp)]
  rw [hdrop] at hfill
  have hcast : ((k + 1 : ℕ) : ℤ) + 1 = (k:ℤ)+1+1 := by push_cast; ring
  rw [hcast]
  rw [hre2, hfill]
  simp [List.append_assoc]

/-- Helper: hitting the head of a trailing missing run with only a left
boundary fills the run flat with the boundary value. -/
theorem interp_loop_tail (P : Grid) (sv : ℤ) (k : ℕ) (filled : List Nat) (todo : List ℕ) :
    interp_loop (P ++ some sv :: List.replicate (k+1) none) filled ((P.length + 1) :: todo)
      = interp_loop (P ++ some sv :: List.replicate (k+1) (some sv))
          (filled ++ (List.range (k+1)).map fun j => P.length + 1 + j) todo := by
  rw [interp_loop_cons]
  have h1 : (P ++ some sv :: List.replicate (k+1) none).getD (P.length + 1) none = none := by
    rw [getD_concat P _ 1, List.getD_cons_succ]
    rw [List.replicate_succ, List.getD_cons_zero]
  rw [h1]
  simp only []
  have h2 : (P ++ some sv :: List.replicate (k+1) none).getD P.length none = some sv := by
    have := getD_concat P (some sv :: List.replicate (k+1) none) 0
    simpa using this
  rw [h2]
  simp only []
  have hscan : scan_end (P ++ some sv :: List.replicate (k+1) none) (P.length + 2)
      = P.length + 2 + k := by
    have hre : P ++ some sv :: List.replicate (k+1) none
        = (P ++ [some sv, none]) ++ List.replicate k none := by
      simp [List.replicate_succ]
    rw [hre]
    have hlen : P.length + 2 = (P ++ [some sv, (none : Option ℤ)]).length := by simp
    rw [hlen, scan_end_tail_spec k (P ++ [some sv, none])]
  rw [hscan]
  have hlt : ¬ (P.length + 2 + k
      < (P ++ some sv :: List.replicate (k+1) none).length) := by
    simp
    omega
  rw [if_neg hlt]
  have hfill := fill_tail_spec (k+1) (P ++ [some sv]) sv P.length (by simp)
  have hre2 : P ++ some sv :: List.replicate (k+1) none
      = (P ++ [some sv]) ++ List.replicate (k+1) none := by
    simp
  rw [hre2, hfill]
  simp [List.append_assoc]

/-- Helper: `getD` inside an all-present region is present. -/
theorem isSome_getD_of_lt (v : Grid) (c i : ℕ)
    (hc : ∀ x ∈ v.take c, x.isSome) (hi : i < c) (hcv : c ≤ v.length) :
    ((v.getD i none)).isSome := by
  rw [List.getD_eq_getElem?_getD]
  cases hx : (v.take c)[i]? with
  | none =>
    rw [List.getElem?_eq_none_iff] at hx
    simp only [List.length_take] at hx
    omega
  | some x =>
    have hmem : x ∈ v.take c := List.getElem?_mem hx
    have hsome := hc x hmem
    rw [List.getElem?_take_of_lt hi] at hx
    rw [hx]
    simpa using hsome

/-- Helper: skip obligation for a shifted block of indices. -/
theorem skip_obligation (v : Grid) (c m bound : ℕ) (hb : c + m ≤ bound)
    (hc : ∀ x ∈ v.take bound, x.isSome) (hbl : bound ≤ v.length) :
    ∀ i ∈ (List.range m).map (c + ·), ((v.getD i none)).isSome := by
  intro i hi
  obtain ⟨x, hx, rfl⟩ : ∃ x, x < m ∧ c + x = i := by
    simpa [List.mem_map, List.mem_range] using hi
  exact isSome_getD_of_lt v bound (c+x) hc (by omega) hbl

set_option maxRecDepth 10000 in
/-- C4: on a 97-slot grid with a leading missing run, interior maximal
missing runs bounded on both sides, and a trailing missing run with only
a left boundary, the interpolator back-fills every leading missing slot
with the first present value, fills the `j`-th slot of each interior run
with `left + j * floor((right - left) / (runLength + 1))`, extends the
trailing run flat with its left boundary value, and returns exactly the
list of filled slot indices; in particular the 7-slot illustration grid
`[#, #, 100, #, #, 130, #]` becomes
`[100, 100, 100, 110, 120, 130, 130]` with filled indices
`[0, 1, 3, 4, 6]`. -/
theorem interpolate_spec (a g1 g2 t : ℕ) (L M R : ℤ)
    (hg1 : 1 ≤ g1) (hg2 : 1 ≤ g2) (ht : 1 ≤ t)
    (hlen97 : a + g1 + g2 + t + 3 = 97) :
    (interpolate_missing_values
        (List.replicate a none ++ some L :: (List.replicate g1 none ++ some M ::
          (List.replicate g2 none ++ some R :: List.replicate t none)))
      = (List.replicate (a+1) (some L)
           ++ (((List.range g1).map fun j : ℕ =>
                some (L + ((j:ℤ)+1) * Int.fdiv (M - L) ((g1:ℤ)+1)))
           ++ (some M
           :: (((List.range g2).map fun j : ℕ =>
                some (M + ((j:ℤ)+1) * Int.fdiv (R - M) ((g2:ℤ)+1)))
           ++ (some R
           :: List.replicate t (some R))))),
         true,
         List.range a ++ (((List.range g1).map fun j => a + 1 + j)
           ++ (((List.range g2).map fun j => a + g1 + 2 + j)
           ++ ((List.range t).map fun j => a + g1 + g2 + 3 + j))))) ∧
    interpolate_missing_values [none, none, some 100, none, none, some 130, none]
      = ([some 100, some 100, some 100, some 110, some 120, some 130, some 130],
         true, [0, 1, 3, 4, 6]) := by
  refine ⟨?_, by decide⟩
  obtain ⟨k1, rfl⟩ : ∃ k, g1 = k + 1 := ⟨g1 - 1, by omega⟩
  obtain ⟨k2, rfl⟩ : ∃ k, g2 = k + 1 := ⟨g2 - 1, by omega⟩
  obtain ⟨k3, rfl⟩ : ∃ k, t = k + 1 := ⟨t - 1, by omega⟩
  unfold interpolate_missing_values
  simp only []
  rw [interp_prefill_spec a L
    (List.replicate (k1+1) none ++ some M ::
      (List.replicate (k2+1) none ++ some R :: List.replicate (k3+1) none))]
  have hVlen : (List.replicate a (none : Option ℤ) ++ some L ::
      (List.replicate (k1+1) none ++ some M ::
        (List.replicate (k2+1) none ++ some R :: List.replicate (k3+1) none))).length
      = (a+1) + (k1+k2+k3+5) := by
    simp only [List.length_append, List.length_cons, List.length_replicate]
    omega
  have htodo : List.range ((List.replicate a (none : Option ℤ) ++ some L ::
      (List.replicate (k1+1) none ++ some M ::
        (List.replicate (k2+1) none ++ some R :: List.replicate (k3+1) none))).length)
      = List.range (a+1) ++ ((a+1) :: (((List.range (k1+1)).map ((a+2) + ·))
          ++ ((a+k1+3) :: (((List.range (k2+1)).map ((a+k1+4) + ·))
          ++ ((a+k1+k2+5) :: (List.range k3).map ((a+k1+k2+6) + ·)))))) := by
    rw [hVlen, List.range_add]
    have e1 : k1+k2+k3+5 = (k1+k2+k3+4)+1 := by omega
    have e2 : k1+k2+k3+4 = (k1+1)+(k2+k3+3) := by omega
    have e3 : (a+1+1)+(k1+1) = a+k1+3 := by omega
    have e4 : k2+k3+3 = (k2+k3+2)+1 := by omega
    have e5 : k2+k3+2 = (k2+1)+(k3+1) := by omega
    have e6 : (a+k1+3+1)+(k2+1) = a+k1+k2+5 := by omega
    congr 1
    rw [e1, range_shift_cons]
    congr 1
    rw [e2, range_shift_split]
    congr 1
    rw [e3, e4, range_shift_cons]
    congr 1
    rw [e5, range_shift_split]
    congr 1
    rw [e6, range_shift_cons]
  rw [htodo]
  -- stage 1: skip the back-filled leading region and its boundary
  have hskip1 : ∀ i ∈ List.range (a+1),
      (((List.replicate a (some L) ++ some L ::
        (List.replicate (k1+1) none ++ some M ::
          (List.replicate (k2+1) none ++ some R :: List.replicate (k3+1) none))).getD
        i none)).isSome := by
    intro i hi
    apply isSome_getD_of_lt _ (a+1) i ?_ (List.mem_range.mp hi) (by simp)
    intro x hx
    have hsh : List.replicate a (some L) ++ some L ::
        (List.replicate (k1+1) none ++ some M ::
          (List.replicate (k2+1) none ++ some R :: List.replicate (k3+1) none))
        = (List.replicate a (some L) ++ [some L]) ++
          (List.replicate (k1+1) none ++ some M ::
            (List.replicate (k2+1) none ++ some R :: List.replicate (k3+1) none)) := by
      simp
    rw [hsh, List.take_left' (by simp)] at hx
    simp only [List.mem_append, List.mem_replicate, List.mem_singleton] at hx
    rcases hx with ⟨_, rfl⟩ | rfl <;> rfl
  rw [interp_loop_skip_run (List.range (a+1)) _ _ _ hskip1]
  -- stage 2: fill the first interior run
  have hg1L := interp_loop_gap (List.replicate a (some L))
      (List.replicate (k2+1) none ++ some R :: List.replicate (k3+1) none)
      L M k1 (List.range a)
      ((((List.range (k1+1)).map ((a+2) + ·))
          ++ ((a+k1+3) :: (((List.range (k2+1)).map ((a+k1+4) + ·))
          ++ ((a+k1+k2+5) :: (List.range k3).map ((a+k1+k2+6) + ·))))))
  rw [show (List.replicate a (some (L:ℤ))).length + 1 = a + 1 from by simp] at hg1L
  rw [show ((List.range (k1+1)).map fun j => (List.replicate a (some (L:ℤ))).length + (j+1))
      = ((List.range (k1+1)).map fun j => a + 1 + j) from
    List.map_congr_left fun x _ => by simp; omega] at hg1L
  rw [hg1L]
  -- stage 3: skip the rest of run 1 and its right boundary
  have hskip2 : ∀ i ∈ (List.range (k1+1)).map ((a+2) + ·),
      (((List.replicate a (some L) ++ some L ::
        (((List.range (k1+1)).map fun j : ℕ =>
            some (L + ((j:ℤ)+1) * Int.fdiv (M - L) ((k1:ℤ)+1+1)))
          ++ some M :: (List.replicate (k2+1) none ++ some R ::
            List.replicate (k3+1) none))).getD i none)).isSome := by
    apply skip_obligation _ (a+2) (k1+1) (a+k1+3) (by omega) ?_ (by simp; omega)
    intro x hx
    have hsh : List.replicate a (some L) ++ some L ::
        (((List.range (k1+1)).map fun j : ℕ =>
            some (L + ((j:ℤ)+1) * Int.fdiv (M - L) ((k1:ℤ)+1+1)))
          ++ some M :: (List.replicate (k2+1) none ++ some R ::
            List.replicate (k3+1) none))
        = ((List.replicate a (some L) ++ [some L]) ++
            (((List.range (k1+1)).map fun j : ℕ =>
              some (L + ((j:ℤ)+1) * Int.fdiv (M - L) ((k1:ℤ)+1+1))) ++ [some M])) ++
          (List.replicate (k2+1) none ++ some R :: List.replicate (k3+1) none) := by
      simp
    rw [hsh, List.take_left' (by simp; omega)] at hx
    simp only [List.mem_append, List.mem_replicate, List.mem_singleton,
      List.mem_map, List.mem_range] at hx
    rcases hx with (⟨_, rfl⟩ | rfl) | (⟨_, _, rfl⟩ | rfl) <;> rfl
  rw [interp_loop_skip_run ((List.range (k1+1)).map ((a+2) + ·)) _ _ _ hskip2]
  -- stage 4: fill the second interior run
  have hsh2 : List.replicate a (some L) ++ some L ::
      (((List.range (k1+1)).map fun j : ℕ =>
          some (L + ((j:ℤ)+1) * Int.fdiv (M - L) ((k1:ℤ)+1+1)))
        ++ some M :: (List.replicate (k2+1) none ++ some R ::
          List.replicate (k3+1) none))
      = (List.replicate a (some L) ++ some L ::
          ((List.range (k1+1)).map fun j : ℕ =>
            some (L + ((j:ℤ)+1) * Int.fdiv (M - L) ((k1:ℤ)+1+1))))
        ++ some M :: (List.replicate (k2+1) none ++ some R ::
          List.replicate (k3+1) none) := by
    simp
  rw [hsh2]
  have hg2L := interp_loop_gap
      (List.replicate a (some L) ++ some L ::
        ((List.range (k1+1)).map fun j : ℕ =>
          some (L + ((j:ℤ)+1) * Int.fdiv (M - L) ((k1:ℤ)+1+1))))
      (List.replicate (k3+1) none) M R k2
      (List.range a ++ (List.range (k1+1)).map fun j => a + 1 + j)
      (((List.range (k2+1)).map ((a+k1+4) + ·))
          ++ ((a+k1+k2+5) :: (List.range k3).map ((a+k1+k2+6) + ·)))
  rw [show (List.replicate a (some L) ++ some L ::
        ((List.range (k1+1)).map fun j : ℕ =>
          some (L + ((j:ℤ)+1) * Int.fdiv (M - L) ((k1:ℤ)+1+1)))).length + 1
      = a + k1 + 3 from by simp; omega] at hg2L
  rw [show ((List.range (k2+1)).map fun j =>
        (List.replicate a (some L) ++ some L ::
          ((List.range (k1+1)).map fun j : ℕ =>
            some (L + ((j:ℤ)+1) * Int.fdiv (M - L) ((k1:ℤ)+1+1)))).length + (j+1))
      = ((List.range (k2+1)).map fun j => a + k1 + 3 + j) from
    List.map_congr_left fun x _ => by simp; omega] at hg2L
  rw [hg2L]
  -- stage 5: skip the rest of run 2 and its right boundary
  have hskip3 : ∀ i ∈ (List.range (k2+1)).map ((a+k1+4) + ·),
      ((((List.replicate a (some L) ++ some L ::
          ((List.range (k1+1)).map fun j : ℕ =>
            some (L + ((j:ℤ)+1) * Int.fdiv (M - L) ((k1:ℤ)+1+1))))
        ++ some M :: (((List.range (k2+1)).map fun j : ℕ =>
            some (M + ((j:ℤ)+1) * Int.fdiv (R - M) ((k2:ℤ)+1+1)))
          ++ some R :: List.replicate (k3+1) none)).getD i none)).isSome := by
    apply skip_obligation _ (a+k1+4) (k2+1) (a+k1+k2+5) (by omega) ?_ (by simp; omega)
    intro x hx
    have hsh : (List.replicate a (some L) ++ some L ::
          ((List.range (k1+1)).map fun j : ℕ =>
            some (L + ((j:ℤ)+1) * Int.fdiv (M - L) ((k1:ℤ)+1+1))))
        ++ some M :: (((List.range (k2+1)).map fun j : ℕ =>
            some (M + ((j:ℤ)+1) * Int.fdiv (R - M) ((k2:ℤ)+1+1)))
          ++ some R :: List.replicate (k3+1) none)
        = (((List.replicate a (some L) ++ [some L]) ++
            (((List.range (k1+1)).map fun j : ℕ =>
              some (L + ((j:ℤ)+1) * Int.fdiv (M - L) ((k1:ℤ)+1+1))) ++ [some M])) ++
            (((List.range (k2+1)).map fun j : ℕ =>
              some (M + ((j:ℤ)+1) * Int.fdiv (R - M) ((k2:ℤ)+1+1))) ++ [some R])) ++
          List.replicate (k3+1) none := by
      simp
    rw [hsh, List.take_left' (by simp; omega)] at hx
    simp only [List.mem_append, List.mem_replicate, List.mem_singleton,
      List.mem_map, List.mem_range] at hx
    rcases hx with ((⟨_, rfl⟩ | rfl) | (⟨_, _, rfl⟩ | rfl)) | (⟨_, _, rfl⟩ | rfl) <;> rfl
  rw [interp_loop_skip_run ((List.range (k2+1)).map ((a+k1+4) + ·)) _ _ _ hskip3]
  -- stage 6: fill the trailing run flat
  have hsh3 : (List.replicate a (some L) ++ some L ::
        ((List.range (k1+1)).map fun j : ℕ =>
          some (L + ((j:ℤ)+1) * Int.fdiv (M - L) ((k1:ℤ)+1+1))))
      ++ some M :: (((List.range (k2+1)).map fun j : ℕ =>
          some (M + ((j:ℤ)+1) * Int.fdiv (R - M) ((k2:ℤ)+1+1)))
        ++ some R :: List.replicate (k3+1) none)
      = (((List.replicate a (some L) ++ some L ::
          ((List.range (k1+1)).map fun j : ℕ =>
            some (L + ((j:ℤ)+1) * Int.fdiv (M - L) ((k1:ℤ)+1+1))))
        ++ some M :: ((List.range (k2+1)).map fun j : ℕ =>
            some (M + ((j:ℤ)+1) * Int.fdiv (R - M) ((k2:ℤ)+1+1)))))
        ++ some R :: List.replicate (k3+1) none := by
    simp
  rw [hsh3]
  have hg3L := interp_loop_tail
      ((List.replicate a (some L) ++ some L ::
          ((List.range (k1+1)).map fun j : ℕ =>
            some (L + ((j:ℤ)+1) * Int.fdiv (M - L) ((k1:ℤ)+1+1))))
        ++ some M :: ((List.range (k2+1)).map fun j : ℕ =>
            some (M + ((j:ℤ)+1) * Int.fdiv (R - M) ((k2:ℤ)+1+1))))
      R k3
      ((List.range a ++ (List.range (k1+1)).map fun j => a + 1 + j)
        ++ (List.range (k2+1)).map fun j => a + k1 + 3 + j)
      ((List.range k3).map ((a+k1+k2+6) + ·))
  rw [show ((List.replicate a (some L) ++ some L ::
          ((List.range (k1+1)).map fun j : ℕ =>
            some (L + ((j:ℤ)+1) * Int.fdiv (M - L) ((k1:ℤ)+1+1))))
        ++ some M :: ((List.range (k2+1)).map fun j : ℕ =>
            some (M + ((j:ℤ)+1) * Int.fdiv (R - M) ((k2:ℤ)+1+1)))).length + 1
      = a + k1 + k2 + 5 from by simp; omega] at hg3L
  rw [hg3L]
  -- stage 7: skip the now-filled trailing region
  have hskip4 : ∀ i ∈ (List.range k3).map ((a+k1+k2+6) + ·),
      ((((List.replicate a (some L) ++ some L ::
          ((List.range (k1+1)).map fun j : ℕ =>
            some (L + ((j:ℤ)+1) * Int.fdiv (M - L) ((k1:ℤ)+1+1))))
        ++ some M :: ((List.range (k2+1)).map fun j : ℕ =>
            some (M + ((j:ℤ)+1) * Int.fdiv (R - M) ((k2:ℤ)+1+1))))
        ++ some R :: List.replicate (k3+1) (some R)).getD i none).isSome := by
    apply skip_obligation _ (a+k1+k2+6) k3 (a+k1+k2+k3+6) (by omega) ?_ (by simp; omega)
    intro x hx
    have hsh : ((List.replicate a (some L) ++ some L ::
          ((List.range (k1+1)).map fun j : ℕ =>
            some (L + ((j:ℤ)+1) * Int.fdiv (M - L) ((k1:ℤ)+1+1))))
        ++ some M :: ((List.range (k2+1)).map fun j : ℕ =>
            some (M + ((j:ℤ)+1) * Int.fdiv (R - M) ((k2:ℤ)+1+1))))
        ++ some R :: List.replicate (k3+1) (some R)
        = ((((List.replicate a (some L) ++ [some L]) ++
            (((List.range (k1+1)).map fun j : ℕ =>
              some (L + ((j:ℤ)+1) * Int.fdiv (M - L) ((k1:ℤ)+1+1))) ++ [some M])) ++
            (((List.range (k2+1)).map fun j : ℕ =>
              some (M + ((j:ℤ)+1) * Int.fdiv (R - M) ((k2:ℤ)+1+1))) ++ [some R])) ++
            List.replicate (k3+1) (some R)) ++ [] := by
      simp
    rw [hsh, List.take_left' (by simp; omega)] at hx
    simp only [List.mem_append, List.mem_replicate, List.mem_singleton,
      List.mem_map, List.mem_range] at hx
    rcases hx with (((⟨_, rfl⟩ | rfl) | (⟨_, _, rfl⟩ | rfl)) | (⟨_, _, rfl⟩ | rfl)) | ⟨_, rfl⟩
      <;> rfl
  have hfin : (List.range k3).map ((a+k1+k2+6) + ·)
      = ((List.range k3).map ((a+k1+k2+6) + ·)) ++ [] := by simp
  rw [hfin, interp_loop_skip_run ((List.range k3).map ((a+k1+k2+6) + ·)) _ _ _ hskip4]
  -- base case and final shape normalisation
  show (_, _, _) = _
  simp only [interp_loop]
  rw [Prod.mk.injEq, Prod.mk.injEq]
  refine ⟨?_, ?_, ?_⟩
  · rw [show ((List.range (k1+1)).map fun j : ℕ =>
          some (L + ((j:ℤ)+1) * Int.fdiv (M - L) ((k1:ℤ)+1+1)))
        = ((List.range (k1+1)).map fun j : ℕ =>
          some (L + ((j:ℤ)+1) * Int.fdiv (M - L) (((k1+1:ℕ):ℤ)+1))) from
      List.map_congr_left fun x _ => by push_cast; ring_nf]
    rw [show ((List.range (k2+1)).map fun j : ℕ =>
          some (M + ((j:ℤ)+1) * Int.fdiv (R - M) ((k2:ℤ)+1+1)))
        = ((List.range (k2+1)).map fun j : ℕ =>
          some (M + ((j:ℤ)+1) * Int.fdiv (R - M) (((k2+1:ℕ):ℤ)+1))) from
      List.map_congr_left fun x _ => by push_cast; ring_nf]
    simp [List.replicate_succ', List.append_assoc]
  · simp
  · rw [show ((List.range (k2+1)).map fun j => a + k1 + 3 + j)
        = ((List.range (k2+1)).map fun j => a + (k1+1) + 2 + j) from
      List.map_congr_left fun x _ => by omega]
    rw [show ((List.range (k3+1)).map fun j => a + k1 + k2 + 5 + j)
        = ((List.range (k3+1)).map fun j => a + (k1+1) + (k2+1) + 3 + j) from
      List.map_congr_left fun x _ => by omega]
    simp [List.append_assoc]

set_option maxRecDepth 10000 in
/-- C4 witness: the theorem instantiated on a concrete 97-slot grid
(2 leading missing slots, interior runs of 2 and 89, one trailing slot),
projected to the spec's 7-slot illustration. -/
theorem interpolate_spec_witness :
    interpolate_missing_values [none, none, some 100, none, none, some 130, none]
      = ([some 100, some 100, some 100, some 110, some 120, some 130, some 130],
         true, [0, 1, 3, 4, 6]) :=
  (interpolate_spec 2 2 89 1 100 130 130 (by omega) (by omega) (by omega) (by omega)).2

set_option maxRecDepth 100000 in
/-- C2 counterexample: on `exEstimateInput` (prev day max 500, run of two
missing days, terminated by a day of constant 1000, followed by a day of
constant 560) the code synthesizes day 1 starting at 500 and day 2 at 520.
The claim instead requires the first synthesized day to start at
`prevMax + 1*step`: 520 with the code's step, or 666 if the step were
computed from the nearest following grid (min 1000) as the claim states. -/
theorem estimator_counterexample :
    ((estimate_missing_days exEstimateInput).1.getD 1 []).getD 0 none = some 500 ∧
    ((estimate_missing_days exEstimateInput).1.getD 2 []).getD 0 none = some 520 ∧
    (500 : ℤ) ≠ 500 + 1 * Int.fdiv (560 - 500) 3 ∧
    (500 : ℤ) ≠ 500 + 1 * Int.fdiv (1000 - 500) 3 := by
  refine ⟨by decide, by decide, by decide, by decide⟩

set_option maxRecDepth 40000 in
/-- Helper: the interpolator leaves an entirely missing grid alone and
fills nothing. -/
theorem interpolate_all_missing :
    interpolate_missing_values allMissingGrid = (allMissingGrid, false, []) := by decide

/-- Helper: a segment whose run has no non-missing day on either side is
left untouched. -/
theorem estimate_segment_none (status : List Bool) (acc : List Grid × List Bool)
    (seg : Nat × Nat) (hp : prev_day status seg.1 = none)
    (hq : next_day status seg.2 = none) :
    estimate_segment status acc seg = acc := by
  unfold estimate_segment
  rw [hp, hq]

/-- Helper: the estimator leaves a window with no non-missing day at all
alone, and flags no day as fully filled. -/
theorem estimate_all_missing (n : ℕ) (hn : 1 ≤ n) :
    estimate_missing_days (List.replicate n allMissingGrid)
      = (List.replicate n allMissingGrid, List.replicate n false) := by
  have hstatus : (List.replicate n allMissingGrid).map is_all_missing
      = List.replicate n true := by
    rw [List.map_replicate, is_all_missing_allMissingGrid]
  have hsegs : missing_segments (List.replicate n true) = [(0, n)] := by
    obtain ⟨m, rfl⟩ : ∃ m, n = m + 1 := ⟨n - 1, by omega⟩
    unfold missing_segments
    show missing_segments_go (0+1) (some 0) (List.replicate m true) = _
    have hgo := missing_segments_go_true m (0+1) 0 []
    rw [List.append_nil] at hgo
    rw [hgo]
    show [(0, 0+1+m)] = [(0, m+1)]
    have hm : 0+1+m = m+1 := by omega
    rw [hm]
  have hprev : prev_day (List.replicate n true) 0 = none := by
    unfold prev_day
    have hf : ((List.range (List.replicate n (true : Bool)).length).filter
        fun d => decide (d < 0) && !((List.replicate n true).getD d true)) = [] := by
      rw [List.filter_eq_nil_iff]
      intro d _
      simp
    rw [hf]
    rfl
  have hnext : next_day (List.replicate n true) n = none := by
    unfold next_day
    have hf : ((List.range (List.replicate n (true : Bool)).length).filter
        fun d => decide (n < d) && !((List.replicate n true).getD d true)) = [] := by
      rw [List.filter_eq_nil_iff]
      intro d hd
      have hdn : d < n := by
        have hdm := List.mem_range.mp hd
        simpa using hdm
      intro hcontra
      have h1 : n < d := by
        rw [Bool.and_eq_true, decide_eq_true_eq] at hcontra
        exact hcontra.1
      omega
    rw [hf]
    rfl
  unfold estimate_missing_days
  simp only []
  rw [hstatus, hsegs, List.length_replicate]
  simp only [List.foldl_cons, List.foldl_nil]
  exact estimate_segment_none _ _ _ hprev hnext

/-- Helper: the 96 differences of an all-missing row are all missing. -/
theorem calculate_differences_all_missing : ∀ n : ℕ,
    calculate_differences (none :: List.replicate n (none : Option ℚ))
      = List.replicate n none := by
  intro n
  induction n with
  | zero => rfl
  | succ m ih =>
    show diffOf none none :: calculate_differences (none :: List.replicate m (none : Option ℚ))
        = none :: List.replicate m none
    rw [ih]
    rfl

/-- C9: a meter whose grids are missing for the whole window (its run of
missing days has no non-missing day on either side) is left untouched by
the estimator with no FullyEstimated flag, the interpolator fills
nothing, so the day is still emitted with status `A` (not `N`), its 96
differences are all the missing sentinel, and its 610/710 cumulative
total uses the default maximum reading 0, i.e. equals `offset / 1000`
rounded to 3 decimals. -/
theorem all_missing_day_spec (n d : ℕ) (hn : 1 ≤ n) (hd : d < n)
    (offset : ℤ) (lf : ℚ)
    (hofs : intDigits (roundHalfUp3 ((offset : ℚ) / 1000)) + 3 ≤ 15) :
    estimate_missing_days (List.replicate n allMissingGrid)
      = (List.replicate n allMissingGrid, List.replicate n false) ∧
    interpolate_missing_values allMissingGrid = (allMissingGrid, false, []) ∧
    dayStatus ((estimate_missing_days (List.replicate n allMissingGrid)).2.getD d false)
      (interpolate_missing_values allMissingGrid).2.2 = "A" ∧
    dayStatus ((estimate_missing_days (List.replicate n allMissingGrid)).2.getD d false)
      (interpolate_missing_values allMissingGrid).2.2 ≠ "N" ∧
    calculate_differences (List.replicate 97 (none : Option ℚ))
      = List.replicate 96 none ∧
    offset_plus_max_reading offset lf allMissingGrid
      = Except.ok (roundHalfUp3 ((offset : ℚ) / 1000)) := by
  have hest := estimate_all_missing n hn
  have hint := interpolate_all_missing
  have hflag : (estimate_missing_days (List.replicate n allMissingGrid)).2.getD d false
      = false := by
    rw [hest]
    rw [List.getD_eq_getElem?_getD, List.getElem?_replicate]
    simp [hd]
  refine ⟨hest, hint, ?_, ?_, calculate_differences_all_missing 96, ?_⟩
  · rw [hflag, hint]
    rfl
  · rw [hflag, hint]
    decide
  · have hmax : grid_max allMissingGrid = none := rfl
    unfold offset_plus_max_reading
    simp only []
    rw [hmax]
    have hX : (offset : ℚ) / 1000 + (((Option.getD (none : Option ℤ) 0 : ℤ) : ℚ)) / ((1 * lf) / 1000)
        = (offset : ℚ) / 1000 := by
      simp
    rw [hX]
    unfold create_numeric_15_3
    rw [if_neg (by omega)]

/-- C9 witness: two all-missing days for a meter with offset 189125 and
scale factor 1. -/
theorem all_missing_day_spec_witness :
    offset_plus_max_reading 189125 1 allMissingGrid
      = Except.ok (roundHalfUp3 ((189125 : ℚ) / 1000)) :=
  (all_missing_day_spec 2 0 (by omega) (by omega) 189125 1 (by
    have hc : (((189125:ℤ)):ℚ) / 1000 = (189125:ℚ) / 1000 := by norm_num
    rw [hc]
    have hr : roundHalfUp3 ((189125 : ℚ) / 1000) = 189125/1000 := by
      unfold roundHalfUp3 halfUpUnit
      norm_num
    rw [hr]
    have hd2 : intDigits (189125/1000 : ℚ) = 3 := by
      unfold intDigits
      have h2 : ⌊|(189125/1000 : ℚ)|⌋ = 189 := by
        have habs : |(189125/1000 : ℚ)| = 189125/1000 := abs_of_pos (by norm_num)
        rw [habs, Int.floor_eq_iff]
        constructor <;> norm_num
      rw [h2]
      have h3 : Int.toNat (189:ℤ) = 189 := rfl
      rw [h3]
      norm_num
    rw [hd2]
    omega)).2.2.2.2.2

/-- Helper: reading a just-written index. -/
theorem getD_set_self (l : List Line) (i : ℕ) (v : Line) (h : i < l.length) :
    (l.set i v).getD i [] = v := by
  rw [List.getD_eq_getElem?_getD, List.getElem?_set_self]
  · rfl
  · exact h

/-- Helper: writing one index does not change another. -/
theorem getD_set_ne (l : List Line) (i j : ℕ) (v : Line) (h : i ≠ j) :
    (l.set i v).getD j [] = l.getD j [] := by
  rw [List.getD_eq_getElem?_getD, List.getElem?_set_ne h, List.getD_eq_getElem?_getD]

/-- Helper: a hit of the `610` scan is at or after its start, inside the
file, and holds a `610` record. -/
theorem find610_go_bounds (lines : List Line) : ∀ (fuel s j : ℕ),
    find610_go lines fuel s = some j →
    s ≤ j ∧ j < lines.length ∧ startswith (lines.getD j []) "610" = true := by
  intro fuel
  induction fuel with
  | zero =>
    intro s j h
    exact absurd h (by simp [find610_go])
  | succ f ih =>
    intro s j h
    unfold find610_go at h
    by_cases hc : startswith (lines.getD s []) "610" = true
    · rw [if_pos hc] at h
      obtain rfl : s = j := Option.some.inj h
      refine ⟨Nat.le_refl _, ?_, hc⟩
      by_contra hge
      rw [List.getD_eq_default _ _ (by omega)] at hc
      exact absurd hc (by decide)
    · rw [if_neg hc] at h
      obtain ⟨h1, h2, h3⟩ := ih (s+1) j h
      exact ⟨by omega, h2, h3⟩

/-- Helper: `find610` bounds. -/
theorem find610_bounds (lines : List Line) (i j : ℕ) (h : find610 lines i = some j) :
    i ≤ j ∧ j < lines.length ∧ startswith (lines.getD j []) "610" = true :=
  find610_go_bounds lines (lines.length - i) i j h

/-- Helper: one more iteration adds its own `610` target. -/
theorem target610_succ (lines : List Line) (m i : ℕ) :
    target610 lines (m+1) i
      = (target610 lines m i
         || (triggered300 lines m && (find610 lines (m+1) == some i))) := by
  unfold target610
  rw [List.range_succ, List.any_append, List.any_cons, List.any_nil, Bool.or_false]

/-- Helper: the expected state only depends on the branch conditions. -/
theorem expectedAt_congr (lines : List Line) (m n i : ℕ)
    (h1 : (triggered300 lines i && decide (i < n))
        = (triggered300 lines i && decide (i < m)))
    (h2 : target610 lines n i = target610 lines m i) :
    expectedAt lines n i = expectedAt lines m i := by
  unfold expectedAt
  rw [h1, h2]

/-- Helper: an untriggered iteration writes nothing. -/
theorem modify_step_neg (lines modified : List Line) (idx : ℕ)
    (h : triggered300 lines idx = false) :
    modify_step lines modified idx = modified := by
  unfold modify_step
  rw [if_neg (by rw [h]; exact Bool.false_ne_true)]

/-- Helper: a triggered iteration with no following `610` only zeroes its
own record. -/
theorem modify_step_pos_none (lines modified : List Line) (idx : ℕ)
    (htr : triggered300 lines idx = true) (hfind : find610 lines (idx+1) = none) :
    modify_step lines modified idx
      = modified.set idx (zero300 (lines.getD idx [])) := by
  unfold modify_step
  rw [if_pos htr]
  simp only []
  rw [hfind]

/-- Helper: a triggered iteration with a rewritable following `610`
zeroes its record and the `610` total. -/
theorem modify_step_pos_some_some (lines modified : List Line) (idx j : ℕ) (r : Line)
    (htr : triggered300 lines idx = true) (hfind : find610 lines (idx+1) = some j)
    (hzw : zeroW1 (lines.getD j []) = some r) :
    modify_step lines modified idx
      = (modified.set idx (zero300 (lines.getD idx []))).set j r := by
  unfold modify_step
  rw [if_pos htr]
  simp only []
  rw [hfind]
  simp only []
  rw [hzw]

/-- Helper: a triggered iteration whose following `610` has no
`W1`-with-successor field only zeroes its own record. -/
theorem modify_step_pos_some_none (lines modified : List Line) (idx j : ℕ)
    (htr : triggered300 lines idx = true) (hfind : find610 lines (idx+1) = some j)
    (hzw : zeroW1 (lines.getD j []) = none) :
    modify_step lines modified idx
      = modified.set idx (zero300 (lines.getD idx [])) := by
  unfold modify_step
  rw [if_pos htr]
  simp only []
  rw [hfind]
  simp only []
  rw [hzw]

/-- Helper: after the first `m` iterations of the step5 loop, every index
holds its expected value. -/
theorem modify_fold_spec (lines : List Line) : ∀ m : ℕ,
    ((List.range m).foldl (modify_step lines) lines).length = lines.length ∧
    ∀ i, ((List.range m).foldl (modify_step lines) lines).getD i []
        = expectedAt lines m i := by
  intro m
  induction m with
  | zero =>
    refine ⟨rfl, fun i => ?_⟩
    show lines.getD i [] = expectedAt lines 0 i
    unfold expectedAt
    have h1 : (triggered300 lines i && decide (i < 0)) = false := by simp
    have h2 : target610 lines 0 i = false := rfl
    rw [h1, h2]
    simp
  | succ m ih =>
    obtain ⟨ihlen, ihval⟩ := ih
    have hstep : (List.range (m+1)).foldl (modify_step lines) lines
        = modify_step lines ((List.range m).foldl (modify_step lines) lines) m := by
      rw [List.range_succ, List.foldl_append]
      rfl
    rw [hstep]
    by_cases htr : triggered300 lines m = true
    · have hm : m < lines.length := by
        by_contra hge
        have hnil : lines.getD m [] = [] := List.getD_eq_default _ _ (by omega)
        unfold triggered300 at htr
        rw [hnil] at htr
        exact absurd htr (by decide)
      cases hfind : find610 lines (m+1) with
      | none =>
        rw [modify_step_pos_none lines _ m htr hfind]
        refine ⟨by rw [List.length_set, ihlen], fun i => ?_⟩
        by_cases hi : i = m
        · subst hi
          rw [getD_set_self _ _ _ (by rw [ihlen]; exact hm)]
          unfold expectedAt
          have hc : (triggered300 lines i && decide (i < i+1)) = true := by
            rw [htr, Bool.true_and]
            exact decide_eq_true (Nat.lt_succ_self i)
          rw [if_pos hc]
        · rw [getD_set_ne _ _ _ _ (fun hh => hi hh.symm), ihval i]
          refine (expectedAt_congr lines m (m+1) i ?_ ?_).symm
          · have hdec : decide (i < m+1) = decide (i < m) :=
              decide_eq_decide.mpr (by omega)
            rw [hdec]
          · have hb : ((none : Option ℕ) == some i) = false := rfl
            rw [target610_succ, hfind, hb, Bool.and_false, Bool.or_false]
      | some j =>
        obtain ⟨hj1, hj2, hj3⟩ := find610_bounds lines (m+1) j hfind
        have hjm : j ≠ m := by omega
        cases hzw : zeroW1 (lines.getD j []) with
        | some r =>
          rw [modify_step_pos_some_some lines _ m j r htr hfind hzw]
          refine ⟨by rw [List.length_set, List.length_set, ihlen], fun i => ?_⟩
          by_cases hij : i = j
          · subst hij
            rw [getD_set_self _ _ _ (by rw [List.length_set, ihlen]; exact hj2)]
            have hc1 : (triggered300 lines i && decide (i < m+1)) = false := by
              rw [decide_eq_false (by omega), Bool.and_false]
            have hc2 : target610 lines (m+1) i = true := by
              rw [target610_succ, hfind, htr, Bool.true_and, beq_self_eq_true,
                Bool.or_true]
            unfold expectedAt
            rw [if_neg (by rw [hc1]; exact Bool.false_ne_true), if_pos hc2, hzw]
          · by_cases him : i = m
            · subst him
              rw [getD_set_ne _ _ _ _ (fun hh => hij hh.symm),
                getD_set_self _ _ _ (by rw [ihlen]; exact hm)]
              unfold expectedAt
              have hc : (triggered300 lines i && decide (i < i+1)) = true := by
                rw [htr, Bool.true_and]
                exact decide_eq_true (Nat.lt_succ_self i)
              rw [if_pos hc]
            · rw [getD_set_ne _ _ _ _ (fun hh => hij hh.symm),
                getD_set_ne _ _ _ _ (fun hh => him hh.symm), ihval i]
              refine (expectedAt_congr lines m (m+1) i ?_ ?_).symm
              · have hdec : decide (i < m+1) = decide (i < m) :=
                  decide_eq_decide.mpr (by omega)
                rw [hdec]
              · have hb : ((some j : Option ℕ) == some i) = false :=
                  beq_eq_false_iff_ne.mpr (fun hh => hij ((Option.some.inj hh).symm))
                rw [target610_succ, hfind, hb, Bool.and_false, Bool.or_false]
        | none =>
          rw [modify_step_pos_some_none lines _ m j htr hfind hzw]
          refine ⟨by rw [List.length_set, ihlen], fun i => ?_⟩
          by_cases hij : i = j
          · subst hij
            rw [getD_set_ne _ _ _ _ (fun hh => hjm hh.symm), ihval i]
            have hforall : ∀ M, decide (i < M) = false →
                expectedAt lines M i = lines.getD i [] := by
              intro M hM
              unfold expectedAt
              rw [hM, Bool.and_false, if_neg Bool.false_ne_true, hzw]
              simp
            rw [hforall m (decide_eq_false (by omega)),
              hforall (m+1) (decide_eq_false (by omega))]
          · by_cases him : i = m
            · subst him
              rw [getD_set_self _ _ _ (by rw [ihlen]; exact hm)]
              unfold expectedAt
              have hc : (triggered300 lines i && decide (i < i+1)) = true := by
                rw [htr, Bool.true_and]
                exact decide_eq_true (Nat.lt_succ_self i)
              rw [if_pos hc]
            · rw [getD_set_ne _ _ _ _ (fun hh => him hh.symm), ihval i]
              refine (expectedAt_congr lines m (m+1) i ?_ ?_).symm
              · have hdec : decide (i < m+1) = decide (i < m) :=
                  decide_eq_decide.mpr (by omega)
                rw [hdec]
              · have hb : ((some j : Option ℕ) == some i) = false :=
                  beq_eq_false_iff_ne.mpr (fun hh => hij ((Option.some.inj hh).symm))
                rw [target610_succ, hfind, hb, Bool.and_false, Bool.or_false]
    · have hf : triggered300 lines m = false := by
        cases h2 : triggered300 lines m
        · rfl
        · exact absurd h2 htr
      rw [modify_step_neg lines _ m hf]
      refine ⟨ihlen, fun i => ?_⟩
      rw [ihval i]
      refine (expectedAt_congr lines m (m+1) i ?_ ?_).symm
      · by_cases hi : i = m
        · subst hi
          rw [hf, Bool.false_and, Bool.false_and]
        · have hdec : decide (i < m+1) = decide (i < m) :=
            decide_eq_decide.mpr (by omega)
          rw [hdec]
      · rw [target610_succ, hf, Bool.false_and, Bool.or_false]

/-- C10: the overlay-zeroing pass preserves the file's record count; the
final file is characterized index by index by `expectedAt`; every `300`
record whose flag field still contains `N` is rewritten to `zero300` of
its original line; for a 102-field `300` line this keeps the first two
fields and the four trailing fields (in particular the `N` flag at field
98) and sets the 96 interval fields 2-97 to `0.000`; the first `610`
record after a triggered `300` has the field after its first `W1` tag set
to `0.000` (no change when it has no such field); and a record that is
neither a triggered `300` nor the first `610` after one is left
unchanged. -/
theorem overlay_zeroing_spec (lines : List Line) :
    (modify_300_and_610 lines).length = lines.length ∧
    (∀ i, (modify_300_and_610 lines).getD i [] = expectedAt lines lines.length i) ∧
    (∀ i, i < lines.length → triggered300 lines i = true →
        (modify_300_and_610 lines).getD i [] = zero300 (lines.getD i [])) ∧
    (∀ l : Line, l.length = 102 →
        (zero300 l).length = 102 ∧
        (zero300 l).getD 98 "" = l.getD 98 "" ∧
        (zero300 l).take 2 = l.take 2 ∧
        (∀ k, k < 96 → (zero300 l).getD (2+k) "" = "0.000") ∧
        (zero300 l).drop 98 = l.drop 98) ∧
    (∀ i j, triggered300 lines i = true → find610 lines (i+1) = some j →
        triggered300 lines j = false →
        (modify_300_and_610 lines).getD j []
          = (zeroW1 (lines.getD j [])).getD (lines.getD j [])) ∧
    (∀ i, triggered300 lines i = false →
        (∀ idx, idx < lines.length → triggered300 lines idx = true →
            find610 lines (idx+1) ≠ some i) →
        (modify_300_and_610 lines).getD i [] = lines.getD i []) := by
  obtain ⟨hlen, hval⟩ := modify_fold_spec lines lines.length
  have hcast : modify_300_and_610 lines
      = (List.range lines.length).foldl (modify_step lines) lines := rfl
  refine ⟨by rw [hcast]; exact hlen, fun i => by rw [hcast]; exact hval i, ?_, ?_, ?_, ?_⟩
  · intro i hi htr
    rw [hcast, hval i]
    unfold expectedAt
    rw [if_pos (by rw [htr, Bool.true_and]; exact decide_eq_true hi)]
  · intro l hl
    have h2 : (l.take 2).length = 2 := by
      rw [List.length_take, hl]
      omega
    have h98 : (l.take 2 ++ List.replicate 96 "0.000").length = 98 := by
      rw [List.length_append, List.length_take, List.length_replicate, hl]
      omega
    refine ⟨?_, ?_, ?_, ?_, ?_⟩
    · unfold zero300
      rw [List.length_append, List.length_append, List.length_take,
        List.length_replicate, List.length_drop, hl]
      omega
    · unfold zero300
      rw [List.getD_eq_getElem?_getD, List.getD_eq_getElem?_getD,
        List.getElem?_append_right h98.le, List.getElem?_drop]
      have hix : 98 + (98 - (l.take 2 ++ List.replicate 96 "0.000").length) = 98 := by
        rw [h98]
      rw [hix]
    · unfold zero300
      rw [List.append_assoc]
      exact List.take_left' h2
    · intro k hk
      unfold zero300
      rw [List.append_assoc, List.getD_eq_getElem?_getD,
        List.getElem?_append_right (by rw [h2]; omega)]
      have hix : 2 + k - (l.take 2).length = k := by
        rw [h2]
        omega
      rw [hix, List.getElem?_append_left (by rw [List.length_replicate]; omega),
        List.getElem?_replicate, if_pos hk]
      rfl
    · unfold zero300
      exact List.drop_left' h98
  · intro i j htri hfind htrj
    rw [hcast, hval j]
    have hi : i < lines.length := by
      by_contra hge
      have hnil : lines.getD i [] = [] := List.getD_eq_default _ _ (by omega)
      unfold triggered300 at htri
      rw [hnil] at htri
      exact absurd htri (by decide)
    have htar : target610 lines lines.length j = true := by
      unfold target610
      rw [List.any_eq_true]
      refine ⟨i, List.mem_range.mpr hi, ?_⟩
      rw [htri, Bool.true_and, hfind]
      exact beq_self_eq_true _
    unfold expectedAt
    rw [htrj, Bool.false_and, if_neg Bool.false_ne_true, if_pos htar]
    cases hzw : zeroW1 (lines.getD j []) <;> rfl
  · intro i htri hno
    rw [hcast, hval i]
    have htar : target610 lines lines.length i = false := by
      unfold target610
      rw [List.any_eq_false]
      intro idx hidx hcontra
      rw [Bool.and_eq_true] at hcontra
      obtain ⟨ha, hb⟩ := hcontra
      exact hno idx (List.mem_range.mp hidx) ha (eq_of_beq hb)
    unfold expectedAt
    rw [htri, Bool.false_and, if_neg Bool.false_ne_true,
      if_neg (by rw [htar]; exact Bool.false_ne_true)]

/-- Helper: membership in the marks of one slot index. -/
theorem mem_markOf (ti i : ℕ) :
    i ∈ markOf ti ↔
      (ti = 0 ∧ i = 1) ∨ (0 < ti ∧ ti < 96 ∧ (i = ti ∨ i = ti + 1)) ∨
        (ti = 96 ∧ i = 96) := by
  unfold markOf
  split_ifs with h1 h2 h3 <;> simp_all <;> try omega

/-- Helper: membership in the marked set. -/
theorem mem_mark_indices (tis : List ℕ) (i : ℕ) :
    i ∈ mark_indices tis ↔ ∃ ti ∈ tis, i ∈ markOf ti := by
  have hgen : ∀ (l : List ℕ) (acc : Finset ℕ),
      (i ∈ l.foldl (fun s ti => s ∪ markOf ti) acc ↔
        i ∈ acc ∨ ∃ ti ∈ l, i ∈ markOf ti) := by
    intro l
    induction l with
    | nil => intro acc; simp
    | cons t rest ih =>
      intro acc
      rw [List.foldl_cons, ih]
      simp [Finset.mem_union]
      tauto
  rw [mark_indices, hgen]
  simp

/-- Helper: marked indices lie in `1..96`. -/
theorem marked_bounds (tis : List ℕ) (i : ℕ) (h : is_marked tis i = true) :
    1 ≤ i ∧ i ≤ 96 := by
  rw [is_marked, decide_eq_true_eq, mem_mark_indices] at h
  obtain ⟨ti, _, hm⟩ := h
  rw [mem_markOf] at hm
  rcases hm with ⟨_, rfl⟩ | ⟨h1, h2, rfl | rfl⟩ | ⟨_, rfl⟩ <;> omega

/-- Helper: a nonempty filled list with slot indices at most 96 marks at
least one index. -/
theorem marked_nonempty (tis : List ℕ) (h0 : tis ≠ [])
    (hle : ∀ ti ∈ tis, ti ≤ 96) :
    ∃ i, is_marked tis i = true := by
  obtain ⟨t, rest, rfl⟩ : ∃ t rest, tis = t :: rest := by
    cases tis with
    | nil => exact absurd rfl h0
    | cons t rest => exact ⟨t, rest, rfl⟩
  have ht : t ≤ 96 := hle t (List.mem_cons_self _ _)
  refine ⟨if t = 0 then 1 else t, ?_⟩
  rw [is_marked, decide_eq_true_eq, mem_mark_indices]
  refine ⟨t, List.mem_cons_self _ _, ?_⟩
  rw [mem_markOf]
  by_cases h : t = 0
  · subst h
    simp
  · rcases Nat.lt_or_ge t 96 with h96 | h96
    · right; left
      refine ⟨by omega, h96, ?_⟩
      rw [if_neg h]
      exact Or.inl rfl
    · right; right
      have : t = 96 := by omega
      subst this
      simp

/-- Helper: the run loop emits maximal runs of the decidable index set
`q`: every emitted segment is a `q`-run closed on both sides, every
carried or listed index is covered, and the runs are separated. -/
theorem merge_go_spec (lab : String) (q : ℕ → Bool) :
    ∀ (L : List ℕ) (s e : ℕ),
    s ≤ e →
    (∀ x, s ≤ x → x ≤ e → q x = true) →
    q (s - 1) = false →
    (∀ x ∈ L, q x = true) →
    List.Pairwise (· < ·) L →
    (∀ x ∈ L, e < x) →
    (∀ x, e < x → q x = true → x ∈ L) →
    ((∀ g ∈ merge_go lab s e L, g.2.2 = lab ∧ s ≤ g.1 ∧ g.1 ≤ g.2.1 ∧
        (∀ x, g.1 ≤ x → x ≤ g.2.1 → q x = true) ∧
        q (g.2.1 + 1) = false ∧ q (g.1 - 1) = false) ∧
     (∀ x, (s ≤ x ∧ x ≤ e) ∨ x ∈ L →
        ∃ g ∈ merge_go lab s e L, g.1 ≤ x ∧ x ≤ g.2.1) ∧
     List.Pairwise (fun u v => u.2.1 + 1 < v.1) (merge_go lab s e L)) := by
  intro L
  induction L with
  | nil =>
    intro s e hse hrun hstart hL hsort hgt hcomp
    refine ⟨?_, ?_, ?_⟩
    · intro g hg
      simp only [merge_go, List.mem_singleton] at hg
      subst hg
      refine ⟨rfl, Nat.le_refl _, hse, hrun, ?_, hstart⟩
      cases hq : q (e+1)
      · rfl
      · exact absurd (hcomp (e+1) (Nat.lt_succ_self e) hq) (List.not_mem_nil _)
    · intro x hx
      rcases hx with ⟨h1, h2⟩ | hx
      · exact ⟨(s, e, lab), by simp [merge_go], h1, h2⟩
      · exact absurd hx (List.not_mem_nil _)
    · simp [merge_go]
  | cons i rest ih =>
    intro s e hse hrun hstart hL hsort hgt hcomp
    have hei : e < i := hgt i (List.mem_cons_self _ _)
    have hLr : ∀ x ∈ rest, q x = true := fun x hx => hL x (List.mem_cons_of_mem _ hx)
    have hsortr : List.Pairwise (· < ·) rest := (List.pairwise_cons.mp hsort).2
    have hheadlt : ∀ x ∈ rest, i < x := (List.pairwise_cons.mp hsort).1
    by_cases hi : i = e + 1
    · subst hi
      have hred : merge_go lab s e ((e+1) :: rest) = merge_go lab s (e+1) rest := by
        simp [merge_go]
      obtain ⟨K1, K2, K3⟩ := ih s (e+1) (by omega)
        (fun x h1 h2 => by
          rcases Nat.lt_or_ge x (e+1) with h | h
          · exact hrun x h1 (by omega)
          · have hx : x = e + 1 := by omega
            subst hx
            exact hL _ (List.mem_cons_self _ _))
        hstart hLr hsortr hheadlt
        (fun x hx hq => by
          rcases List.mem_cons.mp (hcomp x (by omega) hq) with h | h
          · omega
          · exact h)
      rw [hred]
      refine ⟨K1, ?_, K3⟩
      intro x hx
      apply K2
      rcases hx with ⟨h1, h2⟩ | hx
      · exact Or.inl ⟨h1, by omega⟩
      · rcases List.mem_cons.mp hx with h | h
        · subst h
          exact Or.inl ⟨by omega, Nat.le_refl _⟩
        · exact Or.inr h
    · have hgap : e + 1 < i := by omega
      have hred : merge_go lab s e (i :: rest) = (s, e, lab) :: merge_go lab i i rest := by
        simp [merge_go, hi]
      obtain ⟨K1, K2, K3⟩ := ih i i (Nat.le_refl _)
        (fun x h1 h2 => by
          have hx : x = i := by omega
          subst hx
          exact hL _ (List.mem_cons_self _ _))
        (by
          cases hq : q (i-1)
          · rfl
          · rcases List.mem_cons.mp (hcomp (i-1) (by omega) hq) with h | h
            · omega
            · have := hheadlt _ h
              omega)
        hLr hsortr hheadlt
        (fun x hx hq => by
          rcases List.mem_cons.mp (hcomp x (by omega) hq) with h | h
          · omega
          · exact h)
      rw [hred]
      refine ⟨?_, ?_, ?_⟩
      · intro g hg
        rcases List.mem_cons.mp hg with h | h
        · subst h
          refine ⟨rfl, Nat.le_refl _, hse, hrun, ?_, hstart⟩
          cases hq : q (e+1)
          · rfl
          · rcases List.mem_cons.mp (hcomp (e+1) (by omega) hq) with h2 | h2
            · omega
            · have := hheadlt _ h2
              omega
        · obtain ⟨g1, g2, g3, g4, g5, g6⟩ := K1 g h
          exact ⟨g1, by omega, g3, g4, g5, g6⟩
      · intro x hx
        rcases hx with ⟨h1, h2⟩ | hx
        · exact ⟨(s, e, lab), List.mem_cons_self _ _, h1, h2⟩
        · rcases List.mem_cons.mp hx with h | h
          · subst h
            obtain ⟨g, hg, hg1, hg2⟩ := K2 x (Or.inl ⟨Nat.le_refl _, Nat.le_refl _⟩)
            exact ⟨g, List.mem_cons_of_mem _ hg, hg1, hg2⟩
          · obtain ⟨g, hg, hg1, hg2⟩ := K2 x (Or.inr h)
            exact ⟨g, List.mem_cons_of_mem _ hg, hg1, hg2⟩
      · rw [List.pairwise_cons]
        refine ⟨?_, K3⟩
        intro g hg
        have hig := (K1 g hg).2.1
        show e + 1 < g.1
        omega

/-- Helper: the merge of the full ascending enumeration of `q` emits the
maximal `q`-runs. -/
theorem merge_time_slots_spec (lab : String) (q : ℕ → Bool) (L : List ℕ)
    (hq0 : q 0 = false)
    (hL : ∀ x ∈ L, q x = true)
    (hcompl : ∀ x, q x = true → x ∈ L)
    (hsort : List.Pairwise (· < ·) L) :
    (∀ g ∈ merge_time_slots L lab, g.2.2 = lab ∧ g.1 ≤ g.2.1 ∧
        (∀ x, g.1 ≤ x → x ≤ g.2.1 → q x = true) ∧
        q (g.2.1 + 1) = false ∧ q (g.1 - 1) = false) ∧
    (∀ x, q x = true → ∃ g ∈ merge_time_slots L lab, g.1 ≤ x ∧ x ≤ g.2.1) ∧
    List.Pairwise (fun u v => u.2.1 + 1 < v.1) (merge_time_slots L lab) := by
  cases L with
  | nil =>
    refine ⟨by simp [merge_time_slots], ?_, by simp [merge_time_slots]⟩
    intro x hx
    exact absurd (hcompl x hx) (List.not_mem_nil _)
  | cons h rest =>
    have hhq : q h = true := hL h (List.mem_cons_self _ _)
    have hh1 : 1 ≤ h := by
      by_contra hc
      have hz : h = 0 := by omega
      rw [hz, hq0] at hhq
      exact absurd hhq (by decide)
    have hstart : q (h - 1) = false := by
      cases hq : q (h - 1)
      · rfl
      · rcases List.mem_cons.mp (hcompl _ hq) with h2 | h2
        · omega
        · have := (List.pairwise_cons.mp hsort).1 _ h2
          omega
    obtain ⟨K1, K2, K3⟩ := merge_go_spec lab q rest h h (Nat.le_refl _)
      (fun x h1 h2 => by
        have hx : x = h := by omega
        subst hx
        exact hhq)
      hstart
      (fun x hx => hL x (List.mem_cons_of_mem _ hx))
      (List.pairwise_cons.mp hsort).2
      (List.pairwise_cons.mp hsort).1
      (fun x hx hqx => by
        rcases List.mem_cons.mp (hcompl x hqx) with h2 | h2
        · omega
        · exact h2)
    refine ⟨?_, ?_, K3⟩
    · intro g hg
      obtain ⟨g1, _, g3, g4, g5, g6⟩ := K1 g hg
      exact ⟨g1, g3, g4, g5, g6⟩
    · intro x hqx
      rcases List.mem_cons.mp (hcompl x hqx) with h2 | h2
      · subst h2
        exact K2 x (Or.inl ⟨Nat.le_refl _, Nat.le_refl _⟩)
      · exact K2 x (Or.inr h2)

/-- Helper: `build_segments` as the two lone-segment checks applied to
the pipeline value. -/
theorem build_segments_eq (tis : List ℕ) :
    build_segments tis =
      if (if seg_c2 tis = ([(1, 96, "A")] : List (ℕ × ℕ × String)) then []
          else seg_c2 tis) = ([(1, 96, "F")] : List (ℕ × ℕ × String)) then []
      else if seg_c2 tis = ([(1, 96, "A")] : List (ℕ × ℕ × String)) then []
      else seg_c2 tis := rfl

/-- Helper: insertion keeps exactly the inserted element and the rest. -/
theorem insertSeg_perm (x : ℕ × ℕ × String) :
    ∀ l : List (ℕ × ℕ × String), (insertSeg x l).Perm (x :: l) := by
  intro l
  induction l with
  | nil => exact List.Perm.refl _
  | cons y rest ih =>
    show (if y.1 < x.1 then y :: insertSeg x rest else x :: y :: rest).Perm _
    by_cases h : y.1 < x.1
    · rw [if_pos h]
      exact (ih.cons y).trans (List.Perm.swap x y rest)
    · rw [if_neg h]

/-- Helper: the insertion sort permutes its input. -/
theorem sortByStart_perm : ∀ l : List (ℕ × ℕ × String), (sortByStart l).Perm l := by
  intro l
  induction l with
  | nil => exact List.Perm.refl _
  | cons x rest ih =>
    show (insertSeg x (sortByStart rest)).Perm _
    exact (insertSeg_perm x (sortByStart rest)).trans (ih.cons x)

/-- Helper: insertion preserves sortedness by start. -/
theorem insertSeg_sorted (x : ℕ × ℕ × String) :
    ∀ l : List (ℕ × ℕ × String),
    List.Pairwise (fun u v : ℕ × ℕ × String => u.1 ≤ v.1) l →
    List.Pairwise (fun u v : ℕ × ℕ × String => u.1 ≤ v.1) (insertSeg x l) := by
  intro l
  induction l with
  | nil => intro _; exact List.pairwise_singleton _ _
  | cons y rest ih =>
    intro h
    obtain ⟨hy, hrest⟩ := List.pairwise_cons.mp h
    show List.Pairwise _ (if y.1 < x.1 then y :: insertSeg x rest else x :: y :: rest)
    by_cases hc : y.1 < x.1
    · rw [if_pos hc]
      rw [List.pairwise_cons]
      refine ⟨?_, ih hrest⟩
      intro z hz
      rcases List.mem_cons.mp ((insertSeg_perm x rest).mem_iff.mp hz) with h2 | h2
      · subst h2
        omega
      · exact hy z h2
    · rw [if_neg hc]
      rw [List.pairwise_cons]
      refine ⟨?_, h⟩
      intro z hz
      rcases List.mem_cons.mp hz with h2 | h2
      · subst h2
        omega
      · have := hy z h2
        omega

/-- Helper: the insertion sort sorts by start. -/
theorem sortByStart_sorted : ∀ l : List (ℕ × ℕ × String),
    List.Pairwise (fun u v : ℕ × ℕ × String => u.1 ≤ v.1) (sortByStart l) := by
  intro l
  induction l with
  | nil => exact List.Pairwise.nil
  | cons x rest ih =>
    show List.Pairwise _ (insertSeg x (sortByStart rest))
    exact insertSeg_sorted x (sortByStart rest) ih

/-- Helper: separated runs are separated in both orders, member-wise. -/
theorem pairwise_sep_or (l : List (ℕ × ℕ × String))
    (hp : List.Pairwise (fun u v => u.2.1 + 1 < v.1) l) :
    ∀ u ∈ l, ∀ v ∈ l, u ≠ v → u.2.1 + 1 < v.1 ∨ v.2.1 + 1 < u.1 := by
  have hp' : List.Pairwise
      (fun u v : ℕ × ℕ × String => u.2.1 + 1 < v.1 ∨ v.2.1 + 1 < u.1) l :=
    hp.imp (fun h => Or.inl h)
  intro u hu v hv huv
  exact List.Pairwise.forall (fun a b hab => hab.symm) hp' hu hv huv

/-- C5 (amended): for a `V` day (a nonempty list of filled slot indices,
each at most 96) the emitted 400-segments are sorted by start and
disjoint; every segment is a maximal run of `1..96` that is entirely
marked (label `F`) or entirely unmarked (label `A`); when every index of
`1..96` is marked the single `(1,96,F)` segment is dropped and nothing is
emitted; otherwise the union of the segments covers an index of `1..96`
exactly when it is not the index 96 of a dropped `(96,96,A)` segment
(96 unmarked but 95 marked) — so the union is *not* always all of
`1..96`: the `(96,96,A)` filter can leave a gap at 96 even when other
segments remain. -/
theorem segment_partition_amended (tis : List ℕ) (h0 : tis ≠ [])
    (hle : ∀ ti ∈ tis, ti ≤ 96) :
    List.Pairwise (fun u v => u.2.1 < v.1) (build_segments tis) ∧
    (∀ g ∈ build_segments tis,
        1 ≤ g.1 ∧ g.1 ≤ g.2.1 ∧ g.2.1 ≤ 96 ∧
        (g.2.2 = "F" ∨ g.2.2 = "A") ∧
        (g.2.2 = "F" → (∀ x, g.1 ≤ x → x ≤ g.2.1 → is_marked tis x = true) ∧
          (g.2.1 = 96 ∨ is_marked tis (g.2.1 + 1) = false) ∧
          (g.1 = 1 ∨ is_marked tis (g.1 - 1) = false)) ∧
        (g.2.2 = "A" → (∀ x, g.1 ≤ x → x ≤ g.2.1 → is_marked tis x = false) ∧
          (g.2.1 = 96 ∨ is_marked tis (g.2.1 + 1) = true) ∧
          (g.1 = 1 ∨ is_marked tis (g.1 - 1) = true))) ∧
    ((∀ x, x ≤ 96 → 1 ≤ x → is_marked tis x = true) → build_segments tis = []) ∧
    (¬(∀ x, x ≤ 96 → 1 ≤ x → is_marked tis x = true) →
      ∀ x, x ≤ 96 → 1 ≤ x →
        ((∃ g ∈ build_segments tis, g.1 ≤ x ∧ x ≤ g.2.1) ↔
          ¬(x = 96 ∧ is_marked tis 96 = false ∧ is_marked tis 95 = true))) := by
  obtain ⟨x0, hx0⟩ := marked_nonempty tis h0 hle
  obtain ⟨hx0a, hx0b⟩ := marked_bounds tis x0 hx0
  set fL := (List.range' 1 96).filter (fun i => is_marked tis i) with hfL
  set aL := (List.range' 1 96).filter (fun i => !is_marked tis i) with haL
  obtain ⟨F1, F2, F3⟩ := merge_time_slots_spec "F"
    (fun x => decide (1 ≤ x ∧ x ≤ 96) && is_marked tis x) fL
    (by simp)
    (fun x hx => by
      have h1 := List.of_mem_filter hx
      have h2 := List.mem_range'_1.mp (List.mem_of_mem_filter hx)
      rw [Bool.and_eq_true, decide_eq_true_eq]
      exact ⟨⟨by omega, by omega⟩, h1⟩)
    (fun x hx => by
      rw [Bool.and_eq_true, decide_eq_true_eq] at hx
      exact List.mem_filter_of_mem (List.mem_range'_1.mpr ⟨by omega, by omega⟩) hx.2)
    ((List.pairwise_lt_range' 1 96).filter _)
  obtain ⟨A1, A2, A3⟩ := merge_time_slots_spec "A"
    (fun x => decide (1 ≤ x ∧ x ≤ 96) && !is_marked tis x) aL
    (by simp)
    (fun x hx => by
      have h1 := List.of_mem_filter hx
      have h2 := List.mem_range'_1.mp (List.mem_of_mem_filter hx)
      rw [Bool.and_eq_true, decide_eq_true_eq]
      exact ⟨⟨by omega, by omega⟩, h1⟩)
    (fun x hx => by
      rw [Bool.and_eq_true, decide_eq_true_eq] at hx
      exact List.mem_filter_of_mem (List.mem_range'_1.mpr ⟨by omega, by omega⟩) hx.2)
    ((List.pairwise_lt_range' 1 96).filter _)
  set FL := merge_time_slots fL "F" with hFL
  set AL := merge_time_slots aL "A" with hAL
  set C := sortByStart (FL ++ AL) with hC
  set c1 := C.filter (fun g => !(g.1 == 96 && g.2.1 == 96 && g.2.2 == "A")) with hc1
  have hCmem : ∀ g, g ∈ C ↔ g ∈ FL ∨ g ∈ AL := by
    intro g
    rw [hC, (sortByStart_perm (FL ++ AL)).mem_iff]
    exact List.mem_append
  have hcont : ∀ g ∈ C, 1 ≤ g.1 ∧ g.1 ≤ g.2.1 ∧ g.2.1 ≤ 96 ∧
      ((g.2.2 = "F" ∧ (∀ x, g.1 ≤ x → x ≤ g.2.1 → is_marked tis x = true) ∧
          (g.2.1 = 96 ∨ is_marked tis (g.2.1 + 1) = false) ∧
          (g.1 = 1 ∨ is_marked tis (g.1 - 1) = false)) ∨
       (g.2.2 = "A" ∧ (∀ x, g.1 ≤ x → x ≤ g.2.1 → is_marked tis x = false) ∧
          (g.2.1 = 96 ∨ is_marked tis (g.2.1 + 1) = true) ∧
          (g.1 = 1 ∨ is_marked tis (g.1 - 1) = true))) := by
    intro g hg
    rcases (hCmem g).mp hg with hgF | hgA
    · obtain ⟨hlab, hle', hrun, hend, hstart⟩ := F1 g hgF
      have hb1 := hrun g.1 (Nat.le_refl _) hle'
      have hb2 := hrun g.2.1 hle' (Nat.le_refl _)
      rw [Bool.and_eq_true, decide_eq_true_eq] at hb1 hb2
      refine ⟨hb1.1.1, hle', hb2.1.2, Or.inl ⟨hlab, ?_, ?_, ?_⟩⟩
      · intro x h1 h2
        have h3 := hrun x h1 h2
        rw [Bool.and_eq_true, decide_eq_true_eq] at h3
        exact h3.2
      · rcases Nat.lt_or_ge g.2.1 96 with h96 | h96
        · right
          cases hm : is_marked tis (g.2.1 + 1)
          · rfl
          · exfalso
            have hq : (decide (1 ≤ g.2.1 + 1 ∧ g.2.1 + 1 ≤ 96) &&
                is_marked tis (g.2.1 + 1)) = true := by
              rw [Bool.and_eq_true, decide_eq_true_eq]
              exact ⟨⟨by omega, by omega⟩, hm⟩
            rw [hend] at hq
            exact Bool.noConfusion hq
        · left
          omega
      · rcases Nat.lt_or_ge 1 g.1 with h1' | h1'
        · right
          cases hm : is_marked tis (g.1 - 1)
          · rfl
          · exfalso
            have hq : (decide (1 ≤ g.1 - 1 ∧ g.1 - 1 ≤ 96) &&
                is_marked tis (g.1 - 1)) = true := by
              rw [Bool.and_eq_true, decide_eq_true_eq]
              exact ⟨⟨by omega, by omega⟩, hm⟩
            rw [hstart] at hq
            exact Bool.noConfusion hq
        · left
          omega
    · obtain ⟨hlab, hle', hrun, hend, hstart⟩ := A1 g hgA
      have hb1 := hrun g.1 (Nat.le_refl _) hle'
      have hb2 := hrun g.2.1 hle' (Nat.le_refl _)
      rw [Bool.and_eq_true, decide_eq_true_eq] at hb1 hb2
      refine ⟨hb1.1.1, hle', hb2.1.2, Or.inr ⟨hlab, ?_, ?_, ?_⟩⟩
      · intro x h1 h2
        have h3 := hrun x h1 h2
        rw [Bool.and_eq_true, decide_eq_true_eq] at h3
        rcases hm : is_marked tis x
        · rfl
        · rw [hm] at h3
          exact Bool.noConfusion h3.2
      · rcases Nat.lt_or_ge g.2.1 96 with h96 | h96
        · right
          cases hm : is_marked tis (g.2.1 + 1)
          · exfalso
            have hq : (decide (1 ≤ g.2.1 + 1 ∧ g.2.1 + 1 ≤ 96) &&
                !is_marked tis (g.2.1 + 1)) = true := by
              rw [Bool.and_eq_true, decide_eq_true_eq, hm]
              exact ⟨⟨by omega, by omega⟩, rfl⟩
            rw [hend] at hq
            exact Bool.noConfusion hq
          · rfl
        · left
          omega
      · rcases Nat.lt_or_ge 1 g.1 with h1' | h1'
        · right
          cases hm : is_marked tis (g.1 - 1)
          · exfalso
            have hq : (decide (1 ≤ g.1 - 1 ∧ g.1 - 1 ≤ 96) &&
                !is_marked tis (g.1 - 1)) = true := by
              rw [Bool.and_eq_true, decide_eq_true_eq, hm]
              exact ⟨⟨by omega, by omega⟩, rfl⟩
            rw [hstart] at hq
            exact Bool.noConfusion hq
          · rfl
        · left
          omega
  have hcover : ∀ x, 1 ≤ x → x ≤ 96 → ∃ g ∈ C, g.1 ≤ x ∧ x ≤ g.2.1 := by
    intro x h1 h2
    cases hm : is_marked tis x
    · obtain ⟨g, hg, hc'⟩ := A2 x (by
        rw [Bool.and_eq_true, decide_eq_true_eq, hm]
        exact ⟨⟨h1, h2⟩, rfl⟩)
      exact ⟨g, (hCmem g).mpr (Or.inr hg), hc'⟩
    · obtain ⟨g, hg, hc'⟩ := F2 x (by
        rw [Bool.and_eq_true, decide_eq_true_eq]
        exact ⟨⟨h1, h2⟩, hm⟩)
      exact ⟨g, (hCmem g).mpr (Or.inl hg), hc'⟩
  have hsep : ∀ u ∈ C, ∀ v ∈ C, u ≠ v → u.2.1 < v.1 ∨ v.2.1 < u.1 := by
    intro u hu v hv huv
    rcases (hCmem u).mp hu with huF | huA <;> rcases (hCmem v).mp hv with hvF | hvA
    · rcases pairwise_sep_or FL F3 u huF v hvF huv with h | h
      · exact Or.inl (by omega)
      · exact Or.inr (by omega)
    · by_contra hcon
      push_neg at hcon
      obtain ⟨h1, h2⟩ := hcon
      obtain ⟨_, hule, hurun, _, _⟩ := F1 u huF
      obtain ⟨_, hvle, hvrun, _, _⟩ := A1 v hvA
      have hz1 := hurun (max u.1 v.1) (Nat.le_max_left _ _) (by omega)
      have hz2 := hvrun (max u.1 v.1) (Nat.le_max_right _ _) (by omega)
      rw [Bool.and_eq_true] at hz1 hz2
      rw [hz1.2] at hz2
      exact Bool.noConfusion hz2.2
    · by_contra hcon
      push_neg at hcon
      obtain ⟨h1, h2⟩ := hcon
      obtain ⟨_, hule, hurun, _, _⟩ := A1 u huA
      obtain ⟨_, hvle, hvrun, _, _⟩ := F1 v hvF
      have hz1 := hurun (max u.1 v.1) (Nat.le_max_left _ _) (by omega)
      have hz2 := hvrun (max u.1 v.1) (Nat.le_max_right _ _) (by omega)
      rw [Bool.and_eq_true] at hz1 hz2
      rw [hz2.2] at hz1
      exact Bool.noConfusion hz1.2
    · rcases pairwise_sep_or AL A3 u huA v hvA huv with h | h
      · exact Or.inl (by omega)
      · exact Or.inr (by omega)
  have hnodupC : C.Nodup := by
    have hF : FL.Nodup := by
      refine (List.Pairwise.and_mem.mp F3).imp ?_
      rintro a b ⟨ha, _, hab⟩ he
      subst he
      have := (F1 a ha).2.1
      omega
    have hA : AL.Nodup := by
      refine (List.Pairwise.and_mem.mp A3).imp ?_
      rintro a b ⟨ha, _, hab⟩ he
      subst he
      have := (A1 a ha).2.1
      omega
    have hdisj : FL.Disjoint AL := by
      intro g hgF hgA
      exact absurd ((F1 g hgF).1.symm.trans (A1 g hgA).1) (by decide)
    rw [hC, (sortByStart_perm (FL ++ AL)).nodup_iff]
    exact hF.append hA hdisj
  have hCpair : List.Pairwise (fun u v => u.2.1 < v.1) C := by
    have hle' : List.Pairwise (fun u v : ℕ × ℕ × String => u.1 ≤ v.1) C := by
      rw [hC]
      exact sortByStart_sorted (FL ++ AL)
    have hcomb := hle'.and hnodupC
    refine List.Pairwise.imp ?_ (List.Pairwise.and_mem.mp hcomb)
    rintro a b ⟨ha, hb, hab_le, hab_ne⟩
    rcases hsep a ha b hb hab_ne with h | h
    · exact h
    · have := (hcont b hb).2.1
      omega
  have hc1mem : ∀ g, g ∈ c1 ↔ g ∈ C ∧ g ≠ ((96, 96, "A") : ℕ × ℕ × String) := by
    intro g
    rw [hc1, List.mem_filter]
    constructor
    · rintro ⟨hmem, hpred⟩
      refine ⟨hmem, ?_⟩
      intro he
      subst he
      exact absurd hpred (by decide)
    · rintro ⟨hmem, hne⟩
      refine ⟨hmem, ?_⟩
      cases h1 : (g.1 == 96 && g.2.1 == 96 && g.2.2 == "A")
      · rfl
      · exfalso
        rw [Bool.and_eq_true, Bool.and_eq_true] at h1
        obtain ⟨⟨e1, e2⟩, e3⟩ := h1
        exact hne (Prod.ext (eq_of_beq e1) (Prod.ext (eq_of_beq e2) (eq_of_beq e3)))
  have hmapid : c1.map (fun g => (if g.1 = 0 then 1 else g.1, g.2.1, g.2.2)) = c1 := by
    rw [List.map_congr_left ?_, List.map_id]
    intro g hg
    have hgC := ((hc1mem g).mp hg).1
    have hb := (hcont g hgC).1
    show (if g.1 = 0 then 1 else g.1, g.2.1, g.2.2) = id g
    rw [if_neg (by omega)]
    rfl
  have hc2 : seg_c2 tis = c1 := by
    unfold seg_c2
    rw [← hfL, ← haL, ← hFL, ← hAL, ← hC, ← hc1]
    exact hmapid
  by_cases hfull : ∀ x, x ≤ 96 → 1 ≤ x → is_marked tis x = true
  · have hb : build_segments tis = [] := by
      have hfLfull : (List.range' 1 96).filter (fun i => is_marked tis i)
          = List.range' 1 96 := by
        rw [List.filter_eq_self]
        intro a ha
        have h2 := List.mem_range'_1.mp ha
        exact hfull a (by omega) (by omega)
      have haLnil : (List.range' 1 96).filter (fun i => !is_marked tis i) = [] := by
        rw [List.filter_eq_nil_iff]
        intro a ha
        have h2 := List.mem_range'_1.mp ha
        rw [hfull a (by omega) (by omega)]
        decide
      rw [build_segments_eq tis]
      unfold seg_c2
      rw [hfLfull, haLnil]
      decide
    rw [hb]
    refine ⟨List.Pairwise.nil, ?_, fun _ => rfl, fun hnot => absurd hfull hnot⟩
    intro g hg
    exact absurd hg (List.not_mem_nil _)
  · obtain ⟨y0, hy0a, hy0b, hy0c⟩ : ∃ y, y ≤ 96 ∧ 1 ≤ y ∧ is_marked tis y = false := by
      push_neg at hfull
      obtain ⟨y, h1, h2, h3⟩ := hfull
      cases hb : is_marked tis y
      · exact ⟨y, h1, h2, hb⟩
      · exact absurd hb h3
    have hgF : ∃ g ∈ c1, g.2.2 = "F" := by
      obtain ⟨g, hg, _⟩ := F2 x0 (by
        rw [Bool.and_eq_true, decide_eq_true_eq]
        exact ⟨⟨hx0a, hx0b⟩, hx0⟩)
      have hlab := (F1 g hg).1
      refine ⟨g, (hc1mem g).mpr ⟨(hCmem g).mpr (Or.inl hg), ?_⟩, hlab⟩
      intro he
      rw [he] at hlab
      exact absurd hlab (by decide)
    have hne1 : c1 ≠ ([(1, 96, "A")] : List (ℕ × ℕ × String)) := by
      intro he
      obtain ⟨g, hg, hlab⟩ := hgF
      rw [he] at hg
      have := List.mem_singleton.mp hg
      rw [this] at hlab
      exact absurd hlab (by decide)
    have hne2 : c1 ≠ ([(1, 96, "F")] : List (ℕ × ℕ × String)) := by
      intro he
      obtain ⟨g0, hg0, hc0a, hc0b⟩ := A2 y0 (by
        rw [Bool.and_eq_true, decide_eq_true_eq, hy0c]
        exact ⟨⟨hy0b, hy0a⟩, rfl⟩)
      have hg0C : g0 ∈ C := (hCmem g0).mpr (Or.inr hg0)
      by_cases hg096 : g0 = ((96, 96, "A") : ℕ × ℕ × String)
      · have hy096 : y0 = 96 := by
          have h1 : (96 : ℕ) ≤ y0 := by rw [hg096] at hc0a; exact hc0a
          omega
        obtain ⟨_, _, _, hor⟩ := hcont g0 hg0C
        rcases hor with ⟨hlab, _⟩ | ⟨_, hrun, _, hstart⟩
        · rw [hg096] at hlab
          exact absurd hlab (by decide)
        · have hm96 : is_marked tis 96 = false := by
            have := hrun y0 hc0a hc0b
            rw [hy096] at this
            exact this
          have hF96 : (1, 96, "F") ∈ c1 := by
            rw [he]
            exact List.mem_singleton.mpr rfl
          have hFC := ((hc1mem _).mp hF96).1
          obtain ⟨_, _, _, horF⟩ := hcont _ hFC
          rcases horF with ⟨_, hrunF, _, _⟩ | ⟨hlabF, _⟩
          · have := hrunF 96 (show (1:ℕ) ≤ 96 by omega) (show (96:ℕ) ≤ 96 by omega)
            rw [hm96] at this
            exact Bool.noConfusion this
          · exact absurd hlabF (by decide)
      · have hg0c1 : g0 ∈ c1 := (hc1mem g0).mpr ⟨hg0C, hg096⟩
        rw [he] at hg0c1
        have hg0eq := List.mem_singleton.mp hg0c1
        have hlab := (A1 g0 hg0).1
        rw [hg0eq] at hlab
        exact absurd hlab (by decide)
    have hbc1 : build_segments tis = c1 := by
      rw [build_segments_eq tis, hc2]
      simp only [hne1, hne2, if_false]
    rw [hbc1]
    refine ⟨?_, ?_, fun hf => absurd hf hfull, ?_⟩
    · rw [hc1]
      exact hCpair.filter _
    · intro g hg
      have hgC := ((hc1mem g).mp hg).1
      obtain ⟨hb1, hb2, hb3, hor⟩ := hcont g hgC
      refine ⟨hb1, hb2, hb3, ?_, ?_, ?_⟩
      · rcases hor with ⟨h, _⟩ | ⟨h, _⟩
        · exact Or.inl h
        · exact Or.inr h
      · intro hlab
        rcases hor with ⟨_, hrun, hend, hstart⟩ | ⟨hlab', _⟩
        · exact ⟨hrun, hend, hstart⟩
        · exact absurd (hlab.symm.trans hlab') (by decide)
      · intro hlab
        rcases hor with ⟨hlab', _⟩ | ⟨_, hrun, hend, hstart⟩
        · exact absurd (hlab.symm.trans hlab') (by decide)
        · exact ⟨hrun, hend, hstart⟩
    · intro _ x hx96 hx1
      constructor
      · rintro ⟨g, hg, hga, hgb⟩ hdrop
        obtain ⟨hxeq, hm96, hm95⟩ := hdrop
        subst hxeq
        have hgC := ((hc1mem g).mp hg).1
        have hgne := ((hc1mem g).mp hg).2
        obtain ⟨hb1, hb2, hb3, hor⟩ := hcont g hgC
        rcases hor with ⟨_, hrun, _, _⟩ | ⟨hlab, hrun, _, _⟩
        · have := hrun 96 hga hgb
          rw [hm96] at this
          exact Bool.noConfusion this
        · have hg21 : g.2.1 = 96 := by omega
          rcases Nat.lt_or_ge g.1 96 with h95 | h95
          · have := hrun 95 (by omega) (by omega)
            rw [hm95] at this
            exact Bool.noConfusion this
          · have hg1 : g.1 = 96 := by omega
            exact hgne (Prod.ext hg1 (Prod.ext hg21 hlab))
      · intro hnd
        obtain ⟨g, hgC, hga, hgb⟩ := hcover x hx1 hx96
        by_cases hgdrop : g = ((96, 96, "A") : ℕ × ℕ × String)
        · exfalso
          have hga' : (96 : ℕ) ≤ x := by rw [hgdrop] at hga; exact hga
          have hxeq : x = 96 := by omega
          rw [hgdrop] at hgC
          obtain ⟨_, _, _, hor⟩ := hcont _ hgC
          rcases hor with ⟨hlab, _⟩ | ⟨_, hrun, _, hstart⟩
          · exact absurd hlab (by decide)
          · have hm96 : is_marked tis 96 = false := hrun 96 (by omega) (by omega)
            have hm95 : is_marked tis 95 = true := by
              rcases hstart with h1 | h1
              · exact absurd h1 (by decide)
              · exact h1
            exact hnd ⟨hxeq, hm96, hm95⟩
        · exact ⟨g, (hc1mem g).mpr ⟨hgC, hgdrop⟩, hga, hgb⟩

/-- Helper: reading past an appended prefix. -/
theorem getD_append_add {α : Type} (P X : List α) (d : α) (j : ℕ) :
    (P ++ X).getD (P.length + j) d = X.getD j d := by
  rw [List.getD_eq_getElem?_getD, List.getD_eq_getElem?_getD,
    List.getElem?_append_right (by omega)]
  congr 2
  omega

/-- Helper: reading inside an appended prefix. -/
theorem getD_append_lt {α : Type} (P X : List α) (d : α) (j : ℕ) (h : j < P.length) :
    (P ++ X).getD j d = P.getD j d := by
  rw [List.getD_eq_getElem?_getD, List.getD_eq_getElem?_getD,
    List.getElem?_append_left h]

/-- Helper: an in-bounds read is a member. -/
theorem getD_mem {α : Type} (l : List α) (d : α) (j : ℕ) (h : j < l.length) :
    l.getD j d ∈ l := by
  rw [List.getD_eq_getElem?_getD]
  cases hx : l[j]? with
  | none =>
    rw [List.getElem?_eq_none_iff] at hx
    omega
  | some x =>
    exact List.getElem?_mem hx

/-- Helper: a walk stops immediately when no element passes. -/
theorem takeWhile_nil_of {α : Type} (p : α → Bool) (l : List α)
    (h : ∀ x ∈ l, p x = false) : l.takeWhile p = [] := by
  cases l with
  | nil => rfl
  | cons a l =>
    rw [List.takeWhile_cons, h a (List.mem_cons_self _ _)]
    rfl

/-- Helper: a walk passes a fully-accepted prefix. -/
theorem takeWhile_append_all {α : Type} (p : α → Bool) (l1 l2 : List α)
    (h : ∀ x ∈ l1, p x = true) : (l1 ++ l2).takeWhile p = l1 ++ l2.takeWhile p := by
  induction l1 with
  | nil => rfl
  | cons a l ih =>
    rw [List.cons_append, List.takeWhile_cons, h a (List.mem_cons_self _ _),
      ih (fun x hx => h x (List.mem_cons_of_mem _ hx))]
    rfl

/-- Helper: appending empty contributions leaves the accumulator. -/
theorem foldl_append_nil {α β : Type} (c : β → List α) :
    ∀ (l : List β) (acc : List α), (∀ i ∈ l, c i = []) →
    l.foldl (fun a i => a ++ c i) acc = acc := by
  intro l
  induction l with
  | nil => intro acc _; rfl
  | cons b rest ih =>
    intro acc h
    rw [List.foldl_cons, h b (List.mem_cons_self _ _), List.append_nil]
    exact ih acc (fun i hi => h i (List.mem_cons_of_mem _ hi))

/-- Helper: an `A` day preceded by no `N` day contributes nothing. -/
theorem contrib_empty_A (recs : List MRec) (i : ℕ)
    (hstat : (recs.getD i ⟨0, [], ""⟩).status = "A")
    (hpre : ∀ x ∈ recs.take i, ¬(x.status = "N")) :
    backtrack_contrib recs i = [] := by
  unfold backtrack_contrib
  simp only []
  rw [if_pos (Or.inl hstat)]
  have hrun : ((recs.take i).reverse.takeWhile fun x => x.status == "N") = [] := by
    apply takeWhile_nil_of
    intro x hx
    cases hbe : (x.status == "N")
    · rfl
    · exact absurd (eq_of_beq hbe) (hpre x (List.mem_reverse.mp hx))
  rw [hrun]
  rfl

/-- Helper: an `N` day contributes nothing of its own. -/
theorem contrib_empty_N (recs : List MRec) (i : ℕ)
    (hstat : (recs.getD i ⟨0, [], ""⟩).status = "N") :
    backtrack_contrib recs i = [] := by
  unfold backtrack_contrib
  simp only []
  rw [hstat, if_neg (by decide)]

/-- Helper: the `610` scan finds the first match. -/
theorem find610m_go_found (lines : List Line) (meter : String) :
    ∀ (fuel j idx : ℕ), j ≤ idx → idx < j + fuel →
    (∀ k, j ≤ k → k < idx →
      ¬(startswith (lines.getD k []) "610" = true ∧ meter ∈ lines.getD k [])) →
    startswith (lines.getD idx []) "610" = true → meter ∈ lines.getD idx [] →
    find610m_go lines meter fuel j = some idx := by
  intro fuel
  induction fuel with
  | zero =>
    intro j idx h1 h2 _ _ _
    omega
  | succ f ih =>
    intro j idx h1 h2 hk h6 hminl
    unfold find610m_go
    by_cases hj : j = idx
    · subst hj
      rw [if_pos (by rw [h6, Bool.true_and]; exact decide_eq_true hminl)]
    · rw [if_neg ?_]
      · exact ih (j+1) idx (by omega) (by omega) (fun k hk1 hk2 => hk k (by omega) hk2)
          h6 hminl
      · intro hcon
        rw [Bool.and_eq_true, decide_eq_true_eq] at hcon
        exact hk j (Nat.le_refl _) (by omega) ⟨hcon.1, hcon.2⟩

/-- Helper: the upward scan steps over a block of `400` records to the
`300` record below it. -/
theorem find300up_through (lines : List Line) (base : ℕ)
    (h3 : startswith (lines.getD base []) "300" = true) :
    ∀ m, (∀ k, base < k → k ≤ base + m →
        startswith (lines.getD k []) "300" = false ∧
        startswith (lines.getD k []) "400" = true) →
    find300up lines (base + m + 1) = some base := by
  intro m
  induction m with
  | zero =>
    intro _
    unfold find300up
    rw [if_pos h3]
  | succ m ih =>
    intro hk
    have hidx := hk (base + m + 1) (by omega) (by omega)
    have hre : base + (m+1) + 1 = (base + m + 1) + 1 := by omega
    rw [hre]
    unfold find300up
    rw [if_neg (by rw [hidx.1]; exact Bool.false_ne_true), if_pos hidx.2]
    exact ih (fun k h1 h2 => hk k h1 (by omega))

set_option maxRecDepth 40000 in
/-- C1 (code bug): the backward search does carry the nearest non-`N`
610 value forward through consecutive `N` files, and when a previous
value exists both the `610` and the `710` totals are overwritten with
it; but when no earlier non-`N` record exists anywhere the day's file is
*not* left unmodified — the `710` rewrite loop is outside the
`previous_value` guard, so it subscripts `previous_value = None` and the
pass raises `TypeError`, aborting. -/
theorem carry_forward_crash :
    find_previous_valid_610 "M1" [ex6prevN, ex6prevA] ex6cur
      = some (some (55500 : ℤ), "20120922") ∧
    find_previous_valid_610 "M1" [] ex6cur = none ∧
    modify_one_meter ex6cur "M1" none
      = Except.error "TypeError: 'NoneType' object is not subscriptable" ∧
    modify_one_meter ex6cur "M1" (some (some (55500 : ℤ), "20120922"))
      = Except.ok
        [["100", "NEM12"], ["200", "M1"],
         ["300", "20120924", "8.888", "N", "", "20121004", ""],
         ["610", "NMI", "M1", "20120924", "W1", "5.5", "55.500"],
         ["710", "NMI", "M1", "20120924", "W1", "1.000", "55.500"],
         ["900"]] := by
  refine ⟨by decide, by decide, by rfl, by rfl⟩

/-- C3 (amended): walking one meter's window in date order, an `A`/`V`
day preceded by a nonempty run of consecutive `N` days emits that run
oldest-first plus the trigger day itself, stamped with the trigger date
(the trigger day's own record is filtered out again at insertion); an
`A`/`V` day with no preceding `N` day emits nothing, and a run not
terminated by an `A`/`V` day is discarded.  The flipped `N→F` records
are inserted into the trigger day's file directly above that meter's
difference/status (`300`) record — above the whole `300`+`400` block —
and *not* directly above the cumulative-total (`610`) record: any `400`
detail records sit between the inserted lines' block and the `610`. -/
theorem overlay_trigger_amended
    (pre nrun : List MRec) (trig : MRec) (meter : String)
    (A B D : List Line) (l300 l610 : Line)
    (hpreA : ∀ r ∈ pre, r.status = "A")
    (hN : ∀ r ∈ nrun, r.status = "N") (hNne : nrun ≠ [])
    (htrig : trig.status = "A" ∨ trig.status = "V")
    (hdates : ∀ r ∈ nrun, r.file_date ≠ trig.file_date)
    (hnot610 : ∀ l ∈ A ++ [l300] ++ B,
        ¬(startswith l "610" = true ∧ meter ∈ l))
    (h610 : startswith l610 "610" = true) (hm : meter ∈ l610)
    (h300 : startswith l300 "300" = true)
    (h400 : ∀ l ∈ B, startswith l "300" = false ∧ startswith l "400" = true) :
    backtrack_meter (pre ++ nrun ++ [trig])
      = nrun.map (fun r => (r, trig.file_date)) ++ [(trig, trig.file_date)] ∧
    backtrack_meter (pre ++ [trig]) = [] ∧
    backtrack_meter (pre ++ nrun) = [] ∧
    insert_group (A ++ [l300] ++ B ++ [l610] ++ D) meter
        (nrun.map (fun r => (r, trig.file_date)) ++ [(trig, trig.file_date)])
        trig.file_date
      = A ++ nrun.map (fun r => update_flag_to_f r.line) ++ [l300] ++ B ++ [l610] ++ D := by
  have h1 : backtrack_meter (pre ++ nrun ++ [trig])
      = nrun.map (fun r => (r, trig.file_date)) ++ [(trig, trig.file_date)] := by
    have hcontribs : ∀ i ∈ List.range (pre.length + nrun.length),
        backtrack_contrib (pre ++ nrun ++ [trig]) i = [] := by
      intro i hi
      have hi' := List.mem_range.mp hi
      rcases Nat.lt_or_ge i pre.length with hip | hip
      · apply contrib_empty_A
        · rw [getD_append_lt _ _ _ _ (by simp; omega), getD_append_lt _ _ _ _ hip]
          exact hpreA _ (getD_mem pre _ i hip)
        · intro x hx
          rw [List.take_append_of_le_length (by simp; omega),
            List.take_append_of_le_length (by omega)] at hx
          have hxa := hpreA x (List.mem_of_mem_take hx)
          rw [hxa]
          decide
      · apply contrib_empty_N
        have hz := getD_append_add pre nrun (⟨0, [], ""⟩ : MRec) (i - pre.length)
        rw [show pre.length + (i - pre.length) = i from by omega] at hz
        rw [getD_append_lt _ _ _ _ (by simp; omega), hz]
        exact hN _ (getD_mem nrun _ _ (by omega))
    unfold backtrack_meter
    rw [show (pre ++ nrun ++ [trig]).length = pre.length + nrun.length + 1 from by
      simp only [List.length_append, List.length_cons, List.length_nil]]
    rw [List.range_succ, List.foldl_append, foldl_append_nil _ _ _ hcontribs]
    rw [List.foldl_cons, List.foldl_nil, List.nil_append]
    unfold backtrack_contrib
    simp only []
    have hgd : ((pre ++ nrun) ++ [trig]).getD (pre.length + nrun.length) ⟨0, [], ""⟩
        = trig := by
      have hlen' : (pre ++ nrun).length = pre.length + nrun.length := by simp
      have h := getD_append_add (pre ++ nrun) [trig] (⟨0, [], ""⟩ : MRec) 0
      rw [hlen'] at h
      exact h
    rw [hgd, if_pos htrig]
    have htake : ((pre ++ nrun) ++ [trig]).take (pre.length + nrun.length)
        = pre ++ nrun := by
      rw [List.take_append_of_le_length (by simp)]
      rw [show pre.length + nrun.length = (pre ++ nrun).length from by simp]
      exact List.take_length _
    rw [htake, List.reverse_append pre nrun]
    rw [takeWhile_append_all _ _ _ (fun x hx => by
      rw [hN x (List.mem_reverse.mp hx)]
      rfl)]
    rw [takeWhile_nil_of _ _ (fun x hx => by
      rw [hpreA x (List.mem_reverse.mp hx)]
      rfl)]
    rw [List.append_nil, List.reverse_reverse, if_neg hNne]
  refine ⟨h1, ?_, ?_, ?_⟩
  · have hcontribs : ∀ i ∈ List.range pre.length,
        backtrack_contrib (pre ++ [trig]) i = [] := by
      intro i hi
      have hi' := List.mem_range.mp hi
      apply contrib_empty_A
      · rw [getD_append_lt _ _ _ _ hi']
        exact hpreA _ (getD_mem pre _ i hi')
      · intro x hx
        rw [List.take_append_of_le_length (by omega)] at hx
        have hxa := hpreA x (List.mem_of_mem_take hx)
        rw [hxa]
        decide
    unfold backtrack_meter
    rw [show (pre ++ [trig]).length = pre.length + 1 from by simp]
    rw [List.range_succ, List.foldl_append, foldl_append_nil _ _ _ hcontribs]
    rw [List.foldl_cons, List.foldl_nil, List.nil_append]
    unfold backtrack_contrib
    simp only []
    have hgd : (pre ++ [trig]).getD pre.length ⟨0, [], ""⟩ = trig :=
      getD_append_add pre [trig] (⟨0, [], ""⟩ : MRec) 0
    rw [hgd, if_pos htrig]
    have htake : (pre ++ [trig]).take pre.length = pre := by
      rw [List.take_append_of_le_length (by omega)]
      exact List.take_length pre
    rw [htake]
    rw [takeWhile_nil_of _ _ (fun x hx => by
      rw [hpreA x (List.mem_reverse.mp hx)]
      rfl)]
    rfl
  · unfold backtrack_meter
    apply foldl_append_nil
    intro i hi
    have hi' := List.mem_range.mp hi
    rw [show (pre ++ nrun).length = pre.length + nrun.length from by simp] at hi'
    rcases Nat.lt_or_ge i pre.length with hip | hip
    · apply contrib_empty_A
      · rw [getD_append_lt _ _ _ _ hip]
        exact hpreA _ (getD_mem pre _ i hip)
      · intro x hx
        rw [List.take_append_of_le_length (by omega)] at hx
        have hxa := hpreA x (List.mem_of_mem_take hx)
        rw [hxa]
        decide
    · apply contrib_empty_N
      have hz := getD_append_add pre nrun (⟨0, [], ""⟩ : MRec) (i - pre.length)
      rw [show pre.length + (i - pre.length) = i from by omega] at hz
      rw [hz]
      exact hN _ (getD_mem nrun _ _ (by omega))
  · have hlz : (A ++ [l300] ++ B).length = A.length + 1 + B.length := by
      simp only [List.length_append, List.length_cons, List.length_nil]
    have hassoc : A ++ [l300] ++ B ++ [l610] ++ D
        = (A ++ [l300] ++ B) ++ ([l610] ++ D) := by
      simp [List.append_assoc]
    have hLlen : (A ++ [l300] ++ B ++ [l610] ++ D).length
        = A.length + 1 + B.length + (1 + D.length) := by
      simp only [List.length_append, List.length_cons, List.length_nil]
      omega
    have hread610 : (A ++ [l300] ++ B ++ [l610] ++ D).getD (A.length + 1 + B.length) []
        = l610 := by
      rw [hassoc]
      have h := getD_append_add (A ++ [l300] ++ B) ([l610] ++ D) ([] : Line) 0
      rw [hlz] at h
      exact h
    have hreadk : ∀ k, k < A.length + 1 + B.length →
        (A ++ [l300] ++ B ++ [l610] ++ D).getD k [] ∈ A ++ [l300] ++ B := by
      intro k hk
      rw [hassoc, getD_append_lt _ _ _ _ (by rw [hlz]; omega)]
      exact getD_mem _ _ _ (by rw [hlz]; omega)
    have hfind610 : find610m (A ++ [l300] ++ B ++ [l610] ++ D) meter
        = some (A.length + 1 + B.length) := by
      unfold find610m
      apply find610m_go_found
      · omega
      · rw [hLlen]
        omega
      · intro k hk1 hk2
        exact hnot610 _ (hreadk k (by omega))
      · rw [hread610]
        exact h610
      · rw [hread610]
        exact hm
    have hfind300 : find300up (A ++ [l300] ++ B ++ [l610] ++ D) (A.length + 1 + B.length)
        = some A.length := by
      have hb : startswith ((A ++ [l300] ++ B ++ [l610] ++ D).getD A.length []) "300"
          = true := by
        have hread300 : (A ++ [l300] ++ B ++ [l610] ++ D).getD A.length [] = l300 := by
          have hassoc2 : A ++ [l300] ++ B ++ [l610] ++ D
              = A ++ ([l300] ++ (B ++ ([l610] ++ D))) := by
            simp [List.append_assoc]
          rw [hassoc2]
          exact getD_append_add A ([l300] ++ (B ++ ([l610] ++ D))) ([] : Line) 0
        rw [hread300]
        exact h300
      have hsteps : ∀ k, A.length < k → k ≤ A.length + B.length →
          startswith ((A ++ [l300] ++ B ++ [l610] ++ D).getD k []) "300" = false ∧
          startswith ((A ++ [l300] ++ B ++ [l610] ++ D).getD k []) "400" = true := by
        intro k hk1 hk2
        have hreadB : (A ++ [l300] ++ B ++ [l610] ++ D).getD k []
            = B.getD (k - A.length - 1) [] := by
          have hassoc3 : A ++ [l300] ++ B ++ [l610] ++ D
              = (A ++ [l300]) ++ (B ++ ([l610] ++ D)) := by
            simp [List.append_assoc]
          rw [hassoc3]
          have h := getD_append_add (A ++ [l300]) (B ++ ([l610] ++ D)) ([] : Line)
            (k - A.length - 1)
          rw [show (A ++ [l300]).length + (k - A.length - 1) = k from by
            simp only [List.length_append, List.length_cons, List.length_nil]
            omega] at h
          rw [h]
          exact getD_append_lt B ([l610] ++ D) [] _ (by omega)
        rw [hreadB]
        have hmem := getD_mem B ([] : Line) (k - A.length - 1) (by omega)
        exact ⟨(h400 _ hmem).1, (h400 _ hmem).2⟩
      have h := find300up_through (A ++ [l300] ++ B ++ [l610] ++ D) A.length hb
        B.length hsteps
      rw [show A.length + 1 + B.length = A.length + B.length + 1 from by omega]
      exact h
    have hrecords : (((nrun.map fun r => (r, trig.file_date)) ++ [(trig, trig.file_date)]).filter
        fun r => r.1.file_date ≠ trig.file_date).map (fun r => update_flag_to_f r.1.line)
        = nrun.map (fun r => update_flag_to_f r.line) := by
      rw [List.filter_append]
      have hf1 : (nrun.map fun r => (r, trig.file_date)).filter
          (fun r => r.1.file_date ≠ trig.file_date)
          = nrun.map fun r => (r, trig.file_date) := by
        rw [List.filter_eq_self]
        intro a ha
        obtain ⟨r, hr, rfl⟩ := List.mem_map.mp ha
        exact decide_eq_true (hdates r hr)
      have hf2 : ([((trig, trig.file_date) : MRec × ℕ)]).filter
          (fun r => r.1.file_date ≠ trig.file_date) = [] := by
        rw [List.filter_eq_nil_iff]
        intro a ha
        rw [List.mem_singleton] at ha
        subst ha
        simp
      rw [hf1, hf2, List.append_nil, List.map_map]
      rfl
    have hinsne : nrun.map (fun r => update_flag_to_f r.line) ≠ [] := by
      intro he
      rw [List.map_eq_nil_iff] at he
      exact hNne he
    have htk : (A ++ [l300] ++ B ++ [l610] ++ D).take A.length = A := by
      have hassocA : A ++ [l300] ++ B ++ [l610] ++ D
          = A ++ ([l300] ++ B ++ [l610] ++ D) := by
        simp [List.append_assoc]
      rw [hassocA]
      exact List.take_left' rfl
    have hdr : (A ++ [l300] ++ B ++ [l610] ++ D).drop A.length
        = [l300] ++ B ++ [l610] ++ D := by
      have hassocA : A ++ [l300] ++ B ++ [l610] ++ D
          = A ++ ([l300] ++ B ++ [l610] ++ D) := by
        simp [List.append_assoc]
      rw [hassocA]
      exact List.drop_left' rfl
    unfold insert_group
    rw [hfind610]
    simp only []
    rw [hfind300]
    simp only []
    rw [hrecords, if_neg hinsne, htk, hdr]
    simp [List.append_assoc]

set_option maxRecDepth 40000 in
/-- C3 counterexample: a one-`N`-day run triggered by a `V` day whose
file has a `400` record between the meter's `300` and `610`.  The
flipped record lands directly above the `300` (index 2), with the `400`
between it and the `610` — not directly above the `610` (index 4). -/
theorem trigger_insert_counterexample :
    insert_group exFile "M1" (backtrack_meter [exN, exV]) 2
      = [["100", "NEM12"], ["200", "M1"],
         ["300", "20120923", "9.999", "F", "", "20121004", ""],
         ["300", "20120924", "8.888", "V", "", "20121004", ""],
         ["400", "1", "96", "A", ""],
         ["610", "NMI", "M1", "20120924", "W1", "5.5"], ["900"]] ∧
    insert_group exFile "M1" (backtrack_meter [exN, exV]) 2
      ≠ [["100", "NEM12"], ["200", "M1"],
         ["300", "20120924", "8.888", "V", "", "20121004", ""],
         ["400", "1", "96", "A", ""],
         ["300", "20120923", "9.999", "F", "", "20121004", ""],
         ["610", "NMI", "M1", "20120924", "W1", "5.5"], ["900"]] := by
  refine ⟨by decide, by decide⟩

set_option maxRecDepth 40000 in
/-- C3 witness: the amended theorem at the one-`N`-day run of `exN`
triggered by `exV` inside `exFile`. -/
theorem overlay_trigger_amended_witness :
    insert_group exFile "M1"
        ([exN].map (fun r => (r, (2:ℕ))) ++ [(exV, 2)]) 2
      = [["100", "NEM12"], ["200", "M1"]] ++
        [exN].map (fun r => update_flag_to_f r.line) ++
        [["300", "20120924", "8.888", "V", "", "20121004", ""]] ++
        [["400", "1", "96", "A", ""]] ++
        [["610", "NMI", "M1", "20120924", "W1", "5.5"]] ++ [["900"]] :=
  (overlay_trigger_amended [] [exN] exV "M1"
    [["100", "NEM12"], ["200", "M1"]] [["400", "1", "96", "A", ""]] [["900"]]
    ["300", "20120924", "8.888", "V", "", "20121004", ""]
    ["610", "NMI", "M1", "20120924", "W1", "5.5"]
    (by decide) (by decide) (by decide) (by decide) (by decide)
    (by decide) (by decide) (by decide) (by decide) (by decide)).2.2.2

set_option maxRecDepth 40000 in
/-- C5 counterexample: on a `V` day whose only filled slot index is 94
the emitted segments are `(1,93,A)` and `(94,95,F)`: the list is neither
empty nor one of the two dropped lone-segment cases, yet no segment
covers index 96 — the union does not cover `1..96`, so the claimed
exceptions are incomplete. -/
theorem segments_counterexample :
    build_segments [94] = [(1, 93, "A"), (94, 95, "F")] ∧
    (¬∃ g ∈ build_segments [94], g.1 ≤ 96 ∧ 96 ≤ g.2.1) ∧
    build_segments [94] ≠ [] := by
  refine ⟨by decide, by decide, by decide⟩

set_option maxRecDepth 40000 in
/-- C5 witness: the amended theorem at the single filled slot 94 — index
50 is covered. -/
theorem segment_partition_amended_witness :
    ∃ g ∈ build_segments [94], g.1 ≤ 50 ∧ 50 ≤ g.2.1 := by
  have h := (segment_partition_amended [94] (by decide) (by decide)).2.2.2
    (by decide) 50 (by decide) (by decide)
  exact h.mpr (by decide)

set_option maxRecDepth 100000 in
/-- C10 witness: the five-record file — its triggered `300` is zeroed, its
`610` total after `W1` becomes `0.000`, and the `200` record is
untouched. -/
theorem overlay_zeroing_spec_witness :
    (modify_300_and_610 ex5lines).getD 2 [] = zero300 (ex5lines.getD 2 []) ∧
    (modify_300_and_610 ex5lines).getD 4 [] = ["610", "20120924", "W1", "0.000"] ∧
    (modify_300_and_610 ex5lines).getD 1 [] = ex5lines.getD 1 [] := by
  refine ⟨(overlay_zeroing_spec ex5lines).2.2.1 2 (by decide) (by decide), ?_, ?_⟩
  · have h := (overlay_zeroing_spec ex5lines).2.2.2.2.1 2 4 (by decide) (by decide) (by decide)
    rw [h]
    decide
  · exact (overlay_zeroing_spec ex5lines).2.2.2.2.2 1 (by decide) (by decide)

end NEM12
